import Mathlib

/-!
Verification of the redis-replication core decoders.

The byte stream is embedded as `List Nat` (each entry one octet, `< 256`).
Fallible readers return `Except Err (result × remaining stream)`, mirroring
the `Result<_, Error>` signatures of the source.  Machine integers are
embedded as `Int`/`Nat` with explicit two's-complement conversion
(`toSigned`) and explicit wrap-around (`usizeOfInt`, `wrapI32`) at the
points where the source performs an `as` cast.
-/

namespace RedisRepl

/-- Error kinds of the embedding.  `ioErr` is any `std::io` read failure
(truncated stream); `invalidData`/`invalidInput`/`otherErr` mirror the
`ErrorKind` used at each `Error::new` site of the source; `panicked`
stands for a Rust panic (`unwrap`, `expect`, `unimplemented!`). -/
inductive Err
  | ioErr
  | invalidData (msg : String)
  | invalidInput (msg : List Nat)
  | otherErr (msg : String)
  | panicked (msg : String)
  deriving DecidableEq

/-- Two's-complement reading of a `w`-bit unsigned value. -/
def toSigned (w : Nat) (n : Nat) : Int :=
  if n < 2 ^ (w - 1) then (n : Int) else (n : Int) - 2 ^ w

/-- The `as usize` cast of the source, from a signed 64-bit value. -/
def usizeOfInt (i : Int) : Nat := (i.emod (2 ^ 64)).toNat

/-- The `as i32` cast of the source, from a signed 64-bit value. -/
def wrapI32 (i : Int) : Int := toSigned 32 (i.emod (2 ^ 32)).toNat

/-- Reduction of an `isize` arithmetic result back into the signed
64-bit range (release-mode wrap-around on overflow), used where the
source multiplies an `isize` (`count * 2` in the HASH arm of
`read_object`). -/
def wrapI64 (i : Int) : Int := toSigned 64 (i.emod (2 ^ 64)).toNat

/-- Big-endian value of a byte list (first byte most significant). -/
def beNat (bs : List Nat) : Nat := bs.foldl (fun a b => a * 256 + b) 0

/-- Little-endian value of a byte list (first byte least significant). -/
def leNat (bs : List Nat) : Nat := bs.foldr (fun b a => a * 256 + b) 0

/-- `Read::read_exact` on the embedded stream: `n` bytes or an I/O error. -/
def read_exact (n : Nat) (input : List Nat) : Except Err (List Nat × List Nat) :=
  if n ≤ input.length then .ok (input.take n, input.drop n) else .error .ioErr

/-- `read_u8` on the embedded stream. -/
def read_u8 : List Nat → Except Err (Nat × List Nat)
  | [] => .error .ioErr
  | b :: bs => .ok (b, bs)

/-- Decimal digits (ASCII codes), least significant first; `fuel` bounds
the digit count (structural recursion so that terms reduce by `rfl`). -/
def natDecAux : Nat → Nat → List Nat
  | 0, _ => []
  | fuel + 1, n => if n = 0 then [] else (n % 10 + 48) :: natDecAux fuel (n / 10)

/-- Decimal digits (ASCII codes), least significant first, of a positive `Nat`. -/
def natDecRev (n : Nat) : List Nat := natDecAux n n

/-- ASCII decimal rendering of a `Nat` (`0` renders as `"0"`). -/
def natDecimal (n : Nat) : List Nat :=
  if n = 0 then [48] else (natDecRev n).reverse

/-- ASCII decimal rendering of an `Int`, as Rust's `to_string().as_bytes()`. -/
def intDecimal (i : Int) : List Nat :=
  if i < 0 then 45 :: natDecimal (-i).toNat else natDecimal i.toNat

/-- Embedding of `read_integer` (`src/lib.rs`): reads `size` bytes and
interprets them as a signed integer of the corresponding width in the
requested endianness; any size other than 2, 4 or 8 is an error. -/
def read_integer (size : Int) (is_big_endian : Bool) (input : List Nat) :
    Except Err (Int × List Nat) := do
  let (buff, rest) ← read_exact (usizeOfInt size) input
  if is_big_endian then
    if size = 2 then .ok (toSigned 16 (beNat buff), rest)
    else if size = 4 then .ok (toSigned 32 (beNat buff), rest)
    else if size = 8 then .ok (toSigned 64 (beNat buff), rest)
    else .error (.invalidData "Invalid integer size")
  else
    if size = 2 then .ok (toSigned 16 (leNat buff), rest)
    else if size = 4 then .ok (toSigned 32 (leNat buff), rest)
    else if size = 8 then .ok (toSigned 64 (leNat buff), rest)
    else .error (.invalidData "Invalid integer size")

/-- The `Length` struct of `src/lib.rs`. -/
structure Length where
  val : Int
  is_special : Bool
  deriving DecidableEq

/-- Embedding of `read_length` (`src/lib.rs`): decodes the RDB
variable-length prefix.  The branch structure (including the untouched
`result = -1` default for a `10`-prefixed byte other than `0x80`/`0x81`)
mirrors the source line by line. -/
def read_length (input : List Nat) : Except Err (Length × List Nat) := do
  let (byte, r) ← read_u8 input
  let byte_and := byte &&& 0xFF
  let t := (byte &&& 0xC0) >>> 6
  if t = 3 then
    .ok (⟨((byte &&& 0x3F : Nat) : Int), true⟩, r)
  else if t = 0 then
    .ok (⟨((byte &&& 0x3F : Nat) : Int), false⟩, r)
  else if t = 1 then do
    let (next_byte, r2) ← read_u8 r
    .ok (⟨((((byte &&& 0x3F) <<< 8) ||| next_byte : Nat) : Int), false⟩, r2)
  else if byte_and = 0x80 then do
    let (v, r2) ← read_integer 4 true r
    .ok (⟨v, false⟩, r2)
  else if byte_and = 0x81 then do
    let (v, r2) ← read_integer 8 true r
    .ok (⟨v, false⟩, r2)
  else
    .ok (⟨-1, false⟩, r)

/-- Modelled from the spec: one copy step of the LZF back-reference loop.
Copies `k` bytes from distance `dist` behind the output cursor, one byte
at a time so that overlapping references have run-length behaviour.  The
output is kept reversed (most recent byte first).  An out-of-range
back-reference stops the copy (the source's `lzf` module is not under
`src/`). -/
def lzfCopy : Nat → Nat → List Nat → List Nat
  | 0, _, out => out
  | k + 1, dist, out =>
    match out.get? (dist - 1) with
    | some b => lzfCopy k dist (b :: out)
    | none => out

/-- Modelled from the spec: the LZF control loop (§4.1 of the spec; the
source's `lzf` module is not under `src/`).  A control byte `< 32` is a
literal run of `ctrl+1` bytes; otherwise the top three bits are a length
(7 = long form with an extra length byte) and the remaining bits plus the
next byte give the back-reference distance.  Output is reversed. -/
def lzfStep : Nat → List Nat → List Nat → List Nat
  | 0, _, out => out
  | _ + 1, [], out => out
  | f + 1, c :: rest, out =>
    if c < 32 then
      lzfStep f (rest.drop (c + 1)) ((rest.take (c + 1)).reverse ++ out)
    else if c >>> 5 = 7 then
      match rest with
      | l2 :: d2 :: r2 =>
        lzfStep f r2 (lzfCopy ((c >>> 5) + l2 + 2) (((c &&& 31) <<< 8) + d2 + 1) out)
      | _ => out
    else
      match rest with
      | d2 :: r2 =>
        lzfStep f r2 (lzfCopy ((c >>> 5) + 2) (((c &&& 31) <<< 8) + d2 + 1) out)
      | _ => out

/-- Modelled from the spec: LZF decompression into a buffer of `ulen`
bytes.  The source calls `lzf::decompress` with a pre-zeroed output
buffer of the uncompressed length, so the result always has exactly
`ulen` bytes, zero-padded if the input is short. -/
def lzf_decompress (inp : List Nat) (ulen : Nat) : List Nat :=
  let out := (lzfStep (inp.length + 1) inp []).reverse
  out.take ulen ++ List.replicate (ulen - out.length) 0

/-- Embedding of `read_string` (`src/lib.rs`): an RDB string, honouring
the length prefix and its four special encodings. -/
def read_string (input : List Nat) : Except Err (List Nat × List Nat) := do
  let (length, r) ← read_length input
  if length.is_special then
    if length.val = 0 then do
      let (bs, r2) ← read_exact 1 r
      .ok (intDecimal (toSigned 8 (leNat bs)), r2)
    else if length.val = 1 then do
      let (v, r2) ← read_integer 2 false r
      .ok (intDecimal v, r2)
    else if length.val = 2 then do
      let (v, r2) ← read_integer 4 false r
      .ok (intDecimal v, r2)
    else if length.val = 3 then do
      let (ulen, r2) ← read_length r
      let (c_length, r3) ← read_length r2
      let (compressed, r4) ← read_exact (usizeOfInt c_length.val) r3
      .ok (lzf_decompress compressed (usizeOfInt ulen.val), r4)
    else
      .error (.invalidData "Invalid string length")
  else do
    let (buff, r2) ← read_exact (usizeOfInt length.val) r
    .ok (buff, r2)

/-! ### Generic lemmas about the embedding monad and bit-level bridges -/

theorem bind_ok_iff {α β : Type} {x : Except Err α} {f : α → Except Err β} {b : β} :
    (x >>= f) = .ok b ↔ ∃ a, x = .ok a ∧ f a = .ok b := by
  cases x <;> simp [Bind.bind, Except.bind]

set_option maxRecDepth 4096 in
theorem and_63_eq_mod (b : Nat) (hb : b < 256) : b &&& 63 = b % 64 := by
  revert hb; revert b; decide

set_option maxRecDepth 4096 in
theorem and_C0_shr_6_eq_div (b : Nat) (hb : b < 256) : (b &&& 0xC0) >>> 6 = b / 64 := by
  revert hb; revert b; decide

set_option maxRecDepth 100000 in
theorem shl8_or_eq_mul_add (y : Nat) (hy : y < 64) (c : Nat) (hc : c < 256) :
    (y <<< 8) ||| c = y * 256 + c := by
  revert hc; revert c; revert hy; revert y; decide

theorem read_exact_cons_4 (b0 b1 b2 b3 : Nat) (rest : List Nat) :
    read_exact 4 (b0 :: b1 :: b2 :: b3 :: rest) = .ok ([b0, b1, b2, b3], rest) := by
  simp [read_exact, List.take, List.drop]

theorem read_exact_cons_8 (b0 b1 b2 b3 b4 b5 b6 b7 : Nat) (rest : List Nat) :
    read_exact 8 (b0 :: b1 :: b2 :: b3 :: b4 :: b5 :: b6 :: b7 :: rest) =
      .ok ([b0, b1, b2, b3, b4, b5, b6, b7], rest) := by
  simp [read_exact, List.take, List.drop]

/-! ### Claim C2 -/

/-- Claim C2 counterexample: the first byte `0x82` has its top two bits
`10` but is neither `0x80` nor `0x81`, so `read_length` returns the
untouched default `-1`: a negative length from a stream with enough
bytes, refuting the claim that the returned length is always
non-negative. -/
theorem C2_counterexample :
    read_length [0x82] = .ok (⟨-1, false⟩, []) ∧ (⟨-1, false⟩ : Length).val < 0 :=
  ⟨rfl, by decide⟩

/-- Claim C2 (amended): for every stream with enough bytes, the special
flag returned by `read_length` is set exactly when the top two bits of
the first byte are `11`; the length value is non-negative whenever the
top two bits are `00`, `01` or `11`, but with top bits `10` the value can
be negative (`-1` for a first byte other than `0x80`/`0x81`, and the
signed big-endian read for `0x80`/`0x81` can itself be negative). -/
theorem C2_length_sign_and_special_flag :
    ∀ (b : Nat) (rest : List Nat) (l : Length) (r2 : List Nat), b < 256 →
      read_length (b :: rest) = .ok (l, r2) →
      (l.is_special = true ↔ b / 64 = 3) ∧
      ((b / 64 = 0 ∨ b / 64 = 1 ∨ b / 64 = 3) → 0 ≤ l.val) := by
  intro b rest l r2 hb h
  simp only [read_length, read_u8, bind_ok_iff, Bind.bind, Except.bind] at h
  rw [and_C0_shr_6_eq_div b hb] at h
  by_cases h3 : b / 64 = 3
  · rw [if_pos h3] at h
    cases h
    exact ⟨by simp [h3], fun _ => Int.ofNat_nonneg _⟩
  · rw [if_neg h3] at h
    by_cases h0 : b / 64 = 0
    · rw [if_pos h0] at h
      cases h
      exact ⟨by simp [h3], fun _ => Int.ofNat_nonneg _⟩
    · rw [if_neg h0] at h
      by_cases h1 : b / 64 = 1
      · rw [if_pos h1] at h
        cases rest with
        | nil => cases h
        | cons c cs =>
          cases h
          exact ⟨by simp [h3], fun _ => Int.ofNat_nonneg _⟩
      · rw [if_neg h1] at h
        by_cases h80 : b &&& 0xFF = 0x80
        · rw [if_pos h80] at h
          cases hr : read_integer 4 true rest with
          | error e => rw [hr] at h; cases h
          | ok p => rw [hr] at h; cases h; exact ⟨by simp [h3], by omega⟩
        · rw [if_neg h80] at h
          by_cases h81 : b &&& 0xFF = 0x81
          · rw [if_pos h81] at h
            cases hr : read_integer 8 true rest with
            | error e => rw [hr] at h; cases h
            | ok p => rw [hr] at h; cases h; exact ⟨by simp [h3], by omega⟩
          · rw [if_neg h81] at h
            cases h
            exact ⟨by simp [h3], by omega⟩

/-- Witness for `C2_length_sign_and_special_flag` at the byte `0xC3`. -/
theorem C2_witness :
    (0xC3 : Nat) < 256 ∧ read_length [0xC3] = .ok (⟨3, true⟩, []) ∧
      ((true = true ↔ (0xC3 : Nat) / 64 = 3) ∧
        (((0xC3 : Nat) / 64 = 0 ∨ (0xC3 : Nat) / 64 = 1 ∨ (0xC3 : Nat) / 64 = 3) →
          0 ≤ (⟨3, true⟩ : Length).val)) :=
  ⟨by decide, rfl, C2_length_sign_and_special_flag 0xC3 [] ⟨3, true⟩ [] (by decide) rfl⟩

/-! ### Claim C3 -/

theorem read_integer_4_be (b0 b1 b2 b3 : Nat) (rest : List Nat) :
    read_integer 4 true (b0 :: b1 :: b2 :: b3 :: rest) =
      .ok (toSigned 32 (beNat [b0, b1, b2, b3]), rest) := by
  have h4 : usizeOfInt 4 = 4 := by decide
  simp [read_integer, h4, read_exact_cons_4, Bind.bind, Except.bind]

theorem read_integer_8_be (b0 b1 b2 b3 b4 b5 b6 b7 : Nat) (rest : List Nat) :
    read_integer 8 true (b0 :: b1 :: b2 :: b3 :: b4 :: b5 :: b6 :: b7 :: rest) =
      .ok (toSigned 64 (beNat [b0, b1, b2, b3, b4, b5, b6, b7]), rest) := by
  have h8 : usizeOfInt 8 = 8 := by decide
  simp [read_integer, h8, read_exact_cons_8, Bind.bind, Except.bind]

/-- Claim C3 counterexample: after the `0x80` marker the four bytes
`FF FF FF FF` have big-endian value `4294967295`, but `read_length`
interprets them as a signed 32-bit integer and returns `-1`, refuting the
claim that the returned length is the (unsigned) big-endian value of the
next four bytes. -/
theorem C3_counterexample :
    read_length [0x80, 255, 255, 255, 255] = .ok (⟨-1, false⟩, []) ∧
      beNat [255, 255, 255, 255] = 4294967295 ∧ ((-1 : Int) ≠ (4294967295 : Int)) :=
  ⟨rfl, by decide, by decide⟩

/-- Claim C3 (amended): `read_length` decodes the length prefix by the
spec table, except that the 4- and 8-byte big-endian fields after `0x80`
and `0x81` are read as signed (two's-complement) 32- and 64-bit
integers: top bits `00` give the low six bits; `01` gives low-six-bits
times 256 plus the next byte; `0x80` gives the next 4 bytes as a signed
big-endian 32-bit integer; `0x81` the next 8 bytes as a signed big-endian
64-bit integer; top bits `11` give the low six bits with the special flag
set. -/
theorem C3_length_prefix_table :
    ∀ b : Nat, b < 256 →
      (b / 64 = 0 → ∀ rest, read_length (b :: rest) = .ok (⟨(b % 64 : Nat), false⟩, rest)) ∧
      (b / 64 = 1 → ∀ c rest, c < 256 →
        read_length (b :: c :: rest) = .ok (⟨((b % 64) * 256 + c : Nat), false⟩, rest)) ∧
      (b = 0x80 → ∀ b0 b1 b2 b3 rest,
        read_length (b :: b0 :: b1 :: b2 :: b3 :: rest) =
          .ok (⟨toSigned 32 (beNat [b0, b1, b2, b3]), false⟩, rest)) ∧
      (b = 0x81 → ∀ b0 b1 b2 b3 b4 b5 b6 b7 rest,
        read_length (b :: b0 :: b1 :: b2 :: b3 :: b4 :: b5 :: b6 :: b7 :: rest) =
          .ok (⟨toSigned 64 (beNat [b0, b1, b2, b3, b4, b5, b6, b7]), false⟩, rest)) ∧
      (b / 64 = 3 → ∀ rest, read_length (b :: rest) = .ok (⟨(b % 64 : Nat), true⟩, rest)) := by
  intro b hb
  refine ⟨fun h0 rest => ?_, fun h1 c rest hc => ?_, fun h80 b0 b1 b2 b3 rest => ?_,
    fun h81 b0 b1 b2 b3 b4 b5 b6 b7 rest => ?_, fun h3 rest => ?_⟩
  · simp only [read_length, read_u8, Bind.bind, Except.bind, and_C0_shr_6_eq_div b hb]
    rw [if_neg (by omega), if_pos h0, and_63_eq_mod b hb]
  · simp only [read_length, read_u8, Bind.bind, Except.bind, and_C0_shr_6_eq_div b hb]
    rw [if_neg (by omega), if_neg (by omega), if_pos h1, and_63_eq_mod b hb,
      shl8_or_eq_mul_add (b % 64) (Nat.mod_lt b (by decide)) c hc]
  · subst h80
    simp only [read_length, read_u8, Bind.bind, Except.bind]
    rw [if_neg (by decide), if_neg (by decide), if_neg (by decide), if_pos (by decide)]
    simp [read_integer_4_be, Bind.bind, Except.bind]
  · subst h81
    simp only [read_length, read_u8, Bind.bind, Except.bind]
    rw [if_neg (by decide), if_neg (by decide), if_neg (by decide), if_neg (by decide),
      if_pos (by decide)]
    simp [read_integer_8_be, Bind.bind, Except.bind]
  · simp only [read_length, read_u8, Bind.bind, Except.bind, and_C0_shr_6_eq_div b hb]
    rw [if_pos h3, and_63_eq_mod b hb]

/-- Witness for `C3_length_prefix_table`: the `01`-prefixed byte `0x41`
followed by `7` decodes to length `1 * 256 + 7 = 263`. -/
theorem C3_witness :
    read_length [0x41, 7] = .ok (⟨(263 : Nat), false⟩, []) :=
  (C3_length_prefix_table 0x41 (by decide)).2.1 (by decide) 7 [] (by decide)

/-! ### Claim C4 -/

theorem read_integer_2_le (b0 b1 : Nat) (rest : List Nat) :
    read_integer 2 false (b0 :: b1 :: rest) = .ok (toSigned 16 (leNat [b0, b1]), rest) := by
  have h2 : usizeOfInt 2 = 2 := by decide
  have hx : read_exact 2 (b0 :: b1 :: rest) = .ok ([b0, b1], rest) := by
    simp [read_exact, List.take, List.drop]
  simp [read_integer, h2, hx, Bind.bind, Except.bind]

theorem read_integer_4_le (b0 b1 b2 b3 : Nat) (rest : List Nat) :
    read_integer 4 false (b0 :: b1 :: b2 :: b3 :: rest) =
      .ok (toSigned 32 (leNat [b0, b1, b2, b3]), rest) := by
  have h4 : usizeOfInt 4 = 4 := by decide
  simp [read_integer, h4, read_exact_cons_4, Bind.bind, Except.bind]

/-- Claim C4: `read_string` follows the length prefix.  When the prefix is
not special it returns exactly the announced number of raw bytes; when
special, flag 0 returns the decimal rendering of a signed 8-bit integer,
flag 1 of a signed 16-bit little-endian integer, flag 2 of a signed
32-bit little-endian integer, flag 3 reads two further length prefixes
(uncompressed `U`, then compressed `C`) followed by `C` LZF bytes
expanded to `U` bytes, and every other flag value fails with the
malformed-encoding error (`ErrorKind::InvalidData`, "Invalid string
length"). -/
theorem C4_read_string_encodings :
    ∀ (input : List Nat) (l : Length) (r : List Nat), read_length input = .ok (l, r) →
      (l.is_special = false → 0 ≤ l.val → usizeOfInt l.val ≤ r.length →
        read_string input = .ok (r.take (usizeOfInt l.val), r.drop (usizeOfInt l.val))) ∧
      (l.is_special = true → l.val = 0 → ∀ b bs, r = b :: bs →
        read_string input = .ok (intDecimal (toSigned 8 b), bs)) ∧
      (l.is_special = true → l.val = 1 → ∀ b0 b1 bs, r = b0 :: b1 :: bs →
        read_string input = .ok (intDecimal (toSigned 16 (leNat [b0, b1])), bs)) ∧
      (l.is_special = true → l.val = 2 → ∀ b0 b1 b2 b3 bs, r = b0 :: b1 :: b2 :: b3 :: bs →
        read_string input = .ok (intDecimal (toSigned 32 (leNat [b0, b1, b2, b3])), bs)) ∧
      (l.is_special = true → l.val = 3 → ∀ u r2 c r3 comp r4,
        read_length r = .ok (u, r2) → read_length r2 = .ok (c, r3) →
        read_exact (usizeOfInt c.val) r3 = .ok (comp, r4) →
        read_string input = .ok (lzf_decompress comp (usizeOfInt u.val), r4)) ∧
      (l.is_special = true → l.val ≠ 0 → l.val ≠ 1 → l.val ≠ 2 → l.val ≠ 3 →
        read_string input = .error (.invalidData "Invalid string length")) := by
  intro input l r h
  refine ⟨fun hs hnn hlen => ?_, fun hs h0 b bs hr => ?_, fun hs h1 b0 b1 bs hr => ?_,
    fun hs h2 b0 b1 b2 b3 bs hr => ?_, fun hs h3 u r2 c r3 comp r4 hu hc hx => ?_,
    fun hs n0 n1 n2 n3 => ?_⟩
  · simp only [read_string, h, Bind.bind, Except.bind, hs, Bool.false_eq_true, if_false]
    have hx : read_exact (usizeOfInt l.val) r =
        .ok (r.take (usizeOfInt l.val), r.drop (usizeOfInt l.val)) := by
      simp [read_exact, hlen]
    simp [hx]
  · subst hr
    have hx : read_exact 1 (b :: bs) = .ok ([b], bs) := by
      simp [read_exact, List.take, List.drop]
    simp only [read_string, h, Bind.bind, Except.bind, hs, if_true, h0, hx]
    norm_num [leNat]
  · subst hr
    simp only [read_string, h, Bind.bind, Except.bind, hs, if_true, h1]
    rw [if_neg (by omega)]
    simp [read_integer_2_le, Bind.bind, Except.bind]
  · subst hr
    simp only [read_string, h, Bind.bind, Except.bind, hs, if_true, h2]
    rw [if_neg (by omega), if_neg (by omega)]
    simp [read_integer_4_le, Bind.bind, Except.bind]
  · simp only [read_string, h, Bind.bind, Except.bind, hs, if_true, h3]
    simp [hu, hc, hx, Bind.bind, Except.bind]
  · simp only [read_string, h, Bind.bind, Except.bind, hs, if_true]
    rw [if_neg n0, if_neg n1, if_neg n2, if_neg n3]

/-- Witness for `C4_read_string_encodings`: the special flag 0 applied to
the byte `251` yields the decimal rendering of `-5`. -/
theorem C4_witness :
    read_length [0xC0, 251] = .ok (⟨0, true⟩, [251]) ∧
      read_string [0xC0, 251] = .ok ([45, 53], []) := by
  refine ⟨rfl, ?_⟩
  have h := (C4_read_string_encodings [0xC0, 251] ⟨0, true⟩ [251] rfl).2.1 rfl rfl 251 [] rfl
  simpa using h

/-! ### RESP framer (`StandaloneEventListener::response`, `src/lib.rs`) -/

/-- The `Data` enum of `src/lib.rs` wrapping a Redis reply. -/
inductive Data
  | bytes (bs : List Nat)
  | bytesVec (vs : List (List Nat))
  | empty
  deriving DecidableEq

/-- UTF-8 well-formedness of a byte list, as checked by Rust's
`String::from_utf8` (which the source calls with `.unwrap()`). -/
def utf8Valid : List Nat → Bool
  | [] => true
  | b :: rest =>
    if b ≤ 0x7F then utf8Valid rest
    else if 0xC2 ≤ b && b ≤ 0xDF then
      match rest with
      | c1 :: r => decide (0x80 ≤ c1 ∧ c1 ≤ 0xBF) && utf8Valid r
      | [] => false
    else if b = 0xE0 then
      match rest with
      | c1 :: c2 :: r =>
        decide (0xA0 ≤ c1 ∧ c1 ≤ 0xBF ∧ 0x80 ≤ c2 ∧ c2 ≤ 0xBF) && utf8Valid r
      | _ => false
    else if (0xE1 ≤ b && b ≤ 0xEC) || b = 0xEE || b = 0xEF then
      match rest with
      | c1 :: c2 :: r =>
        decide (0x80 ≤ c1 ∧ c1 ≤ 0xBF ∧ 0x80 ≤ c2 ∧ c2 ≤ 0xBF) && utf8Valid r
      | _ => false
    else if b = 0xED then
      match rest with
      | c1 :: c2 :: r =>
        decide (0x80 ≤ c1 ∧ c1 ≤ 0x9F ∧ 0x80 ≤ c2 ∧ c2 ≤ 0xBF) && utf8Valid r
      | _ => false
    else if b = 0xF0 then
      match rest with
      | c1 :: c2 :: c3 :: r =>
        decide (0x90 ≤ c1 ∧ c1 ≤ 0xBF ∧ 0x80 ≤ c2 ∧ c2 ≤ 0xBF ∧ 0x80 ≤ c3 ∧ c3 ≤ 0xBF) &&
          utf8Valid r
      | _ => false
    else if 0xF1 ≤ b && b ≤ 0xF3 then
      match rest with
      | c1 :: c2 :: c3 :: r =>
        decide (0x80 ≤ c1 ∧ c1 ≤ 0xBF ∧ 0x80 ≤ c2 ∧ c2 ≤ 0xBF ∧ 0x80 ≤ c3 ∧ c3 ≤ 0xBF) &&
          utf8Valid r
      | _ => false
    else if b = 0xF4 then
      match rest with
      | c1 :: c2 :: c3 :: r =>
        decide (0x80 ≤ c1 ∧ c1 ≤ 0x8F ∧ 0x80 ≤ c2 ∧ c2 ≤ 0xBF ∧ 0x80 ≤ c3 ∧ c3 ≤ 0xBF) &&
          utf8Valid r
      | _ => false
    else false

/-- Accumulated decimal value of an ASCII digit string, or `none` if some
byte is not a digit. -/
def decDigits (bs : List Nat) : Option Nat :=
  bs.foldl
    (fun acc b =>
      match acc with
      | none => none
      | some v => if 48 ≤ b ∧ b ≤ 57 then some (v * 10 + (b - 48)) else none)
    (some 0)

/-- Rust's `str::parse::<isize>()` on a byte list: optional sign, at
least one digit, all digits, result within the signed 64-bit range. -/
def parseIsize (bs : List Nat) : Option Int :=
  match bs with
  | [] => none
  | 43 :: rest =>
    if rest = [] then none
    else (decDigits rest).bind fun v => if v ≤ 2 ^ 63 - 1 then some (v : Int) else none
  | 45 :: rest =>
    if rest = [] then none
    else (decDigits rest).bind fun v => if v ≤ 2 ^ 63 then some (-(v : Int)) else none
  | _ =>
    (decDigits bs).bind fun v => if v ≤ 2 ^ 63 - 1 then some (v : Int) else none

/-- The "read bytes until CR" loops of `response`: collects bytes up to
(and consuming) the first `\r`; an exhausted stream is an I/O error. -/
def readLine : List Nat → Except Err (List Nat × List Nat)
  | [] => .error .ioErr
  | b :: bs =>
    if b = 13 then .ok ([], bs)
    else
      match readLine bs with
      | .error e => .error e
      | .ok (l, r) => .ok (b :: l, r)

/-- Embedding of `read_bytes` (`src/lib.rs`): the bulk-string payload
reader.  A positive length reads that many bytes and demands a CRLF
trailer; length zero consumes two (unchecked) trailer bytes; a negative
length is a null bulk string and consumes nothing. -/
def read_bytes (input : List Nat) (length : Int) : Except Err (Data × List Nat) :=
  if 0 < length then
    match read_exact (usizeOfInt length) input with
    | .error e => .error e
    | .ok (bytes, r1) =>
      match read_exact 2 r1 with
      | .error e => .error e
      | .ok (endb, r2) =>
        if endb = [13, 10] then .ok (.bytes bytes, r2)
        else .error (.otherErr "Expect CRLF after bulk string")
  else if length = 0 then
    match read_exact 2 input with
    | .error e => .error e
    | .ok (_, r1) => .ok (.empty, r1)
  else .ok (.empty, input)

/-- Defunctionalised shape of the `response` recursion: `frame` is one
invocation of `StandaloneEventListener::response`; `children n input acc`
is the in-progress loop of the `*` (array) branch that still has to read
`n` child frames, with `acc` the flattened results so far. -/
inductive RespTask
  | frame (input : List Nat)
  | children (n : Nat) (input : List Nat) (acc : List (List Nat))

/-- Embedding of `StandaloneEventListener::response` (`src/lib.rs`),
parameterised (as in the source) by the bulk-payload reader `func`.  The
source's mutual recursion (`response` calls itself once per array child)
is defunctionalised through `RespTask` so that the recursion is
structural on `fuel`; every recursion step is preceded by at least one
consumed input byte, so `input.length + 1` fuel always suffices (see
`response`).  Branches mirror the source: `+`/`:` return the line, `-`
converts the line to a string (panicking on invalid UTF-8) and returns
it as an `InvalidInput` failure, a CR not followed by LF is an
`InvalidData` error, `$`/`*` parse the length line with
`parse::<isize>().unwrap()` (panicking when it does not parse), and any
other type byte falls out of the loop returning `Ok(Empty)`.  Child
frames are always read with the `read_bytes` payload reader, as in the
source. -/
def respAux (func : List Nat → Int → Except Err (Data × List Nat)) :
    Nat → RespTask → Except Err (Data × List Nat)
  | 0, _ => .error .ioErr
  | fuel + 1, .frame input =>
    match read_u8 input with
    | .error e => .error e
    | .ok (t, r0) =>
      if t = 43 ∨ t = 45 ∨ t = 58 then
        match readLine r0 with
        | .error e => .error e
        | .ok (line, r1) =>
          match read_u8 r1 with
          | .error e => .error e
          | .ok (b, r2) =>
            if b = 10 then
              if t = 43 ∨ t = 58 then .ok (.bytes line, r2)
              else if utf8Valid line then .error (.invalidInput line)
              else .error (.panicked "String::from_utf8 failed")
            else .error (.invalidData "Expect LF after CR")
      else if t = 36 then
        match readLine r0 with
        | .error e => .error e
        | .ok (line, r1) =>
          match read_u8 r1 with
          | .error e => .error e
          | .ok (b, r2) =>
            if b = 10 then
              match parseIsize line with
              | some n => func r2 n
              | none => .error (.panicked "length line does not parse")
            else .error (.invalidData "Expect LF after CR")
      else if t = 42 then
        match readLine r0 with
        | .error e => .error e
        | .ok (line, r1) =>
          match read_u8 r1 with
          | .error e => .error e
          | .ok (b, r2) =>
            if b = 10 then
              match parseIsize line with
              | some n =>
                if n ≤ 0 then .ok (.empty, r2)
                else respAux func fuel (.children n.toNat r2 [])
              | none => .error (.panicked "length line does not parse")
            else .error (.invalidData "Expect LF after CR")
      else .ok (.empty, r0)
  | _ + 1, .children 0 input acc => .ok (.bytesVec acc, input)
  | fuel + 1, .children (n + 1) input acc =>
    match respAux read_bytes fuel (.frame input) with
    | .ok (.bytes b, r) => respAux func fuel (.children n r (acc ++ [b]))
    | .ok (.bytesVec vs, r) => respAux func fuel (.children n r (acc ++ vs))
    | .ok (.empty, _) => .error (.invalidData "Expect Redis response, but got empty")
    | .error e => .error e

/-- `response` as invoked with the `read_bytes` payload reader.  The fuel
`input.length + 1` dominates the recursion depth, because every `*`
header consumes at least four bytes before its children are read. -/
def response (input : List Nat) : Except Err (Data × List Nat) :=
  respAux read_bytes (input.length + 1) (.frame input)

/-! ### Claim C7 -/

theorem readLine_append (msg r : List Nat) (h : 13 ∉ msg) :
    readLine (msg ++ 13 :: r) = .ok (msg, r) := by
  induction msg with
  | nil => simp [readLine]
  | cons b bs ih =>
    have hb : b ≠ 13 := fun hb => h (by simp [hb])
    have hbs : 13 ∉ bs := fun hm => h (by simp [hm])
    simp [readLine, hb, ih hbs]

/-- Claim C7 counterexample: the unknown RESP type byte `0x40` makes
`response` fall out of its loop and return `Ok(Empty)` — a successful
empty result, not the `Protocol` error result the claim demands for a
malformed frame. -/
theorem C7_counterexample :
    response [0x40] = .ok (.empty, []) ∧ ∀ e : Err, response [0x40] ≠ .error e :=
  ⟨rfl, fun _ h => by cases h⟩

/-- Claim C7 (amended): a reply whose type byte is `-` is reported as a
typed failure (`ErrorKind::InvalidInput`) whose message is exactly the
server's error line; a CR not followed by LF is surfaced as a `Protocol`
(`ErrorKind::InvalidData`) error result; but a malformed length line
panics in `parse::<isize>().unwrap()` instead of returning an error, and
an unknown type byte yields an empty successful result rather than an
error. -/
theorem C7_resp_error_discrimination :
    (∀ msg rest, 13 ∉ msg → utf8Valid msg = true →
      response (45 :: (msg ++ 13 :: 10 :: rest)) = .error (.invalidInput msg)) ∧
    (∀ msg b rest, 13 ∉ msg → b ≠ 10 →
      response (43 :: (msg ++ 13 :: b :: rest)) =
        .error (.invalidData "Expect LF after CR")) ∧
    (∀ line rest, 13 ∉ line → parseIsize line = none →
      response (36 :: (line ++ 13 :: 10 :: rest)) =
        .error (.panicked "length line does not parse")) ∧
    (∀ b rest, b ≠ 43 → b ≠ 45 → b ≠ 58 → b ≠ 36 → b ≠ 42 →
      response (b :: rest) = .ok (.empty, rest)) := by
  refine ⟨fun msg rest h13 hval => ?_, fun msg b rest h13 hb => ?_,
    fun line rest h13 hparse => ?_, fun b rest h43 h45 h58 h36 h42 => ?_⟩
  · simp [response, respAux, read_u8, readLine_append msg (10 :: rest) h13, hval]
  · simp [response, respAux, read_u8, readLine_append msg (b :: rest) h13, hb]
  · simp [response, respAux, read_u8, readLine_append line (10 :: rest) h13, hparse]
  · simp [response, respAux, read_u8, h43, h45, h58, h36, h42]

/-- Witness for `C7_resp_error_discrimination`: the server reply
`-ERR\r\n` fails with the typed message `ERR`. -/
theorem C7_witness :
    response [45, 69, 82, 82, 13, 10] = .error (.invalidInput [69, 82, 82]) :=
  C7_resp_error_discrimination.1 [69, 82, 82] [] (by decide) (by decide)

/-! ### RDB data model (`src/rdb.rs`) -/

/-- The `ExpireType` enum of `src/rdb.rs`. -/
inductive ExpireType
  | second
  | millisecond
  deriving DecidableEq

/-- The `EvictType` enum of `src/rdb.rs`. -/
inductive EvictType
  | lru
  | lfu
  deriving DecidableEq

/-- The `Meta` struct of `src/rdb.rs`: db index, optional expire,
optional eviction info. -/
structure Meta where
  db : Int
  expire : Option (ExpireType × Int)
  evict : Option (EvictType × Int)
  deriving DecidableEq

/-- The `Field` struct of `src/rdb.rs` (one hash field). -/
structure Field where
  name : List Nat
  value : List Nat
  deriving DecidableEq

/-- Sorted-set score as read from the stream.  The source stores an
`f64`; IEEE-754 arithmetic is outside this embedding, so the score keeps
the undecoded form: the special v1 tags, or the raw bytes (8 binary
bytes for v1/v2 doubles, the decimal text for ziplist-encoded sets,
whose `parse::<f64>()` step is modelled by the acceptance test
`isF64Text` while the `f64` value itself stays uninterpreted). -/
inductive Score
  | nan
  | posInf
  | negInf
  | raw (bs : List Nat)
  deriving DecidableEq

/-- The `Item` struct of `src/rdb.rs` (one sorted-set element). -/
structure Item where
  member : List Nat
  score : Score
  deriving DecidableEq

/-- The `Object` enum of `src/rdb.rs`.  `module` and `stream` carry only
the key and meta here: the source never constructs them (`MODULE`,
`MODULE_2` and `STREAM_LISTPACKS` records hit `unimplemented!()` first). -/
inductive Obj
  | str (key value : List Nat) (meta : Meta)
  | list (key : List Nat) (values : List (List Nat)) (meta : Meta)
  | set (key : List Nat) (members : List (List Nat)) (meta : Meta)
  | sortedSet (key : List Nat) (items : List Item) (meta : Meta)
  | hash (key : List Nat) (fields : List Field) (meta : Meta)
  | module (key : List Nat) (meta : Meta)
  | stream (key : List Nat) (meta : Meta)
  | bor
  | eor
  deriving DecidableEq

/-- The fragment of the `Command` enum relevant to the RDB decoder: the
synthetic `SELECT{db}` command (`db` is an `i32` in the source). -/
inductive Command
  | select (db : Int)
  deriving DecidableEq

/-- The `Event` enum: an RDB (snapshot) event or an AOF (stream) event. -/
inductive Event
  | rdb (o : Obj)
  | aof (c : Command)
  deriving DecidableEq

/-- Embedding of `read_zm_len` (`src/rdb.rs`): a zipmap length byte,
`254` introducing a 4-byte big-endian length, `255` returned as-is. -/
def read_zm_len (input : List Nat) : Except Err (Nat × List Nat) := do
  let (len, r) ← read_u8 input
  if len ≤ 253 then .ok (len, r)
  else if len = 254 then do
    let (bs, r2) ← read_exact 4 r
    .ok (beNat bs, r2)
  else .ok (len, r)

/-- Embedding of `read_zip_list_entry` (`src/rdb.rs`): skips the
prev-length field (one byte, or five when the first byte is `≥ 254`),
then dispatches on the encoding byte: top bits `00`/`01`/`10` denote
6/14/32-bit string lengths; otherwise the exact tag selects an integer
width, rendered as decimal bytes; any remaining tag yields
`(flag - 0xF1) as isize` (release-mode wrapping subtraction; no wrap
occurs for the inline tags `0xF1..=0xFD` a well-formed ziplist uses). -/
def read_zip_list_entry (input : List Nat) : Except Err (List Nat × List Nat) := do
  let (prev, r0) ← read_u8 input
  let r1 ←
    if 254 ≤ prev then do
      let (_, r) ← read_exact 4 r0
      pure r
    else pure r0
  let (flag, r2) ← read_u8 r1
  if flag >>> 6 = 0 then
    read_exact (flag &&& 0x3F) r2
  else if flag >>> 6 = 1 then do
    let (next_byte, r3) ← read_u8 r2
    read_exact (((flag &&& 0x3F) <<< 8) ||| next_byte) r3
  else if flag >>> 6 = 2 then do
    let (lenb, r3) ← read_exact 4 r2
    read_exact (beNat lenb) r3
  else if flag = 254 then do
    let (bs, r3) ← read_exact 1 r2
    .ok (intDecimal (toSigned 8 (leNat bs)), r3)
  else if flag = 192 then do
    let (bs, r3) ← read_exact 2 r2
    .ok (intDecimal (toSigned 16 (leNat bs)), r3)
  else if flag = 240 then do
    let (bs, r3) ← read_exact 3 r2
    .ok (intDecimal (toSigned 24 (leNat bs)), r3)
  else if flag = 208 then do
    let (bs, r3) ← read_exact 4 r2
    .ok (intDecimal (toSigned 32 (leNat bs)), r3)
  else if flag = 224 then do
    let (bs, r3) ← read_exact 8 r2
    .ok (intDecimal (toSigned 64 (leNat bs)), r3)
  else
    .ok (intDecimal ((flag + 256 - 241) % 256 : Nat), r2)

/-! ### Packed-format iterators (spec-modelled) and the batching loops -/

/-- Modelled from the spec: `StrValIter` (the `iter` module is not under
`src/`): yields `count` RDB strings read from the stream.  A read
failure ends the iteration — the decoder loops treat `Err` from
`iter.next()` as end-of-iteration. -/
def strValNext : Int × List Nat → Option (List Nat × (Int × List Nat))
  | (count, input) =>
    if 0 < count then
      match read_string input with
      | .ok (s, rest) => some (s, (count - 1, rest))
      | .error _ => none
    else none

/-- Modelled from the spec: `SortedSetIter` (§4.3, sorted-set binary; the
`iter` module is not under `src/`): the member is an RDB string; for
version 1 the score is one tag byte (253 = NaN, 254 = +∞, 255 = −∞,
otherwise a little-endian double follows); for version 2 the score is
always 8 raw little-endian bytes. -/
def sortedSetNext (v : Nat) : Int × List Nat → Option (Item × (Int × List Nat))
  | (count, input) =>
    if 0 < count then
      match read_string input with
      | .error _ => none
      | .ok (member, r1) =>
        if v = 2 then
          match read_exact 8 r1 with
          | .ok (bs, r2) => some (⟨member, .raw bs⟩, (count - 1, r2))
          | .error _ => none
        else
          match read_u8 r1 with
          | .error _ => none
          | .ok (tag, r2) =>
            if tag = 253 then some (⟨member, .nan⟩, (count - 1, r2))
            else if tag = 254 then some (⟨member, .posInf⟩, (count - 1, r2))
            else if tag = 255 then some (⟨member, .negInf⟩, (count - 1, r2))
            else
              match read_exact 8 r2 with
              | .ok (bs, r3) => some (⟨member, .raw bs⟩, (count - 1, r3))
              | .error _ => none
    else none

/-- Modelled from the spec: `ZipListIter` (the `iter` module is not under
`src/`): stops after `count` entries or at a `0xFF` terminator byte,
whichever comes first; entries are decoded with the source's
`read_zip_list_entry`. -/
def zipListNext : Int × List Nat → Option (List Nat × (Int × List Nat))
  | (count, cursor) =>
    if 0 < count then
      match cursor with
      | 255 :: _ => none
      | _ =>
        match read_zip_list_entry cursor with
        | .ok (e, rest) => some (e, (count - 1, rest))
        | .error _ => none
    else none

/-- Modelled from the spec: `ZipMapIter` (the `iter` module is not under
`src/`): each entry is a length-prefixed key (lengths via the source's
`read_zm_len`) then a length-prefixed value preceded by one free byte
which is skipped; a `0xFF` byte in key position ends the map. -/
def zipMapNext (cursor : List Nat) : Option (Field × List Nat) :=
  match cursor with
  | [] => none
  | 255 :: _ => none
  | _ =>
    match read_zm_len cursor with
    | .error _ => none
    | .ok (klen, r1) =>
      match read_exact klen r1 with
      | .error _ => none
      | .ok (name, r2) =>
        match read_zm_len r2 with
        | .error _ => none
        | .ok (vlen, r3) =>
          match read_u8 r3 with
          | .error _ => none
          | .ok (_, r4) =>
            match read_exact vlen r4 with
            | .error _ => none
            | .ok (value, r5) => some (⟨name, value⟩, r5)

/-- Modelled from the spec: `IntSetIter` (the `iter` module is not under
`src/`): `count` integers of the width given by the intset header
(2, 4 or 8 bytes, little-endian, read via the source's `read_integer`,
which rejects other widths), each rendered as decimal bytes. -/
def intSetNext (encoding : Int) : Int × List Nat → Option (List Nat × (Int × List Nat))
  | (count, cursor) =>
    if 0 < count then
      match read_integer encoding false cursor with
      | .ok (v, rest) => some (intDecimal v, (count - 1, rest))
      | .error _ => none
    else none

/-- Modelled from the spec: one step of `QuickListIter` (the `iter`
module is not under `src/`): drains the current inner ziplist; when it
is exhausted, reads the next length-prefixed inner ziplist from the
stream (skipping its 8 header bytes and reading its 16-bit little-endian
entry count) while the outer count lasts.  `fuel` bounds the number of
consecutive empty inner ziplists skipped within one step. -/
def quickListStep : Nat → Int × Option (Int × List Nat) × List Nat →
    Option (List Nat × (Int × Option (Int × List Nat) × List Nat))
  | 0, _ => none
  | fuel + 1, (count, inner, input) =>
    match inner with
    | some st =>
      match zipListNext st with
      | some (e, st') => some (e, (count, some st', input))
      | none => quickListStep fuel (count, none, input)
    | none =>
      if 0 < count then
        match read_string input with
        | .error _ => none
        | .ok (zl, rest) =>
          match read_exact 2 (zl.drop 8) with
          | .error _ => none
          | .ok (cb, body) => quickListStep fuel (count - 1, some ((leNat cb : Int), body), rest)
      else none

/-- `QuickListIter::next`: at most `2·count + 2` skipping steps can occur
(fetching an inner ziplist and failing to drain it each decrement or
clear something), so that fuel is always sufficient. -/
def quickListNext (st : Int × Option (Int × List Nat) × List Nat) :
    Option (List Nat × (Int × Option (Int × List Nat) × List Nat)) :=
  quickListStep (st.1.toNat * 2 + 2) st

/-- `BATCH_SIZE` (`src/rdb.rs`). -/
def BATCH_SIZE : Nat := 64

/-- The inner `for _ in 0..BATCH_SIZE` loop of the container arms of
`read_object`: fills a batch of up to `n` elements; the returned flag is
the loop's `has_more` (`false` when the iterator ended the batch early). -/
def fillBatch {σ E : Type} (next : σ → Option (E × σ)) : Nat → σ → List E × σ × Bool
  | 0, s => ([], s, true)
  | n + 1, s =>
    match next s with
    | none => ([], s, false)
    | some p =>
      let r := fillBatch next n p.2
      (p.1 :: r.1, r.2.1, r.2.2)

/-- The outer `while has_more` loop of the container arms of
`read_object`: repeatedly fills a batch of `BATCH_SIZE` elements and
emits it when non-empty.  `fuel` bounds the number of batches; every
call site passes an over-approximation of the iterator's element count,
which dominates the batch count. -/
def batchLoop {σ E : Type} (next : σ → Option (E × σ)) : Nat → σ → List (List E) × σ
  | 0, s => ([], s)
  | fuel + 1, s =>
    let r := fillBatch next BATCH_SIZE s
    let emitted : List (List E) := if r.1.isEmpty then [] else [r.1]
    if r.2.2 then
      let r2 := batchLoop next fuel r.2.1
      (emitted ++ r2.1, r2.2)
    else (emitted, r.2.1)

/-- The inner batch loop of the `HASH`, `HASH_ZIPLIST` and
`ZSET_ZIPLIST` arms of `read_object`: each slot draws two consecutive
elements from the iterator; when the first draw succeeds but the second
fails, the source's `iter.next().expect(msg)` panics. -/
def fillPairBatch {σ E : Type} (next : σ → Option (E × σ)) (msg : String) :
    Nat → σ → Except Err (List (E × E) × σ × Bool)
  | 0, s => .ok ([], s, true)
  | n + 1, s =>
    match next s with
    | none => .ok ([], s, false)
    | some p =>
      match next p.2 with
      | none => .error (.panicked msg)
      | some q =>
        match fillPairBatch next msg n q.2 with
        | .error e => .error e
        | .ok r => .ok ((p.1, q.1) :: r.1, r.2.1, r.2.2)

/-- The outer `while has_more` loop for the pairing arms (see
`fillPairBatch`). -/
def pairBatchLoop {σ E : Type} (next : σ → Option (E × σ)) (msg : String) :
    Nat → σ → Except Err (List (List (E × E)) × σ)
  | 0, s => .ok ([], s)
  | fuel + 1, s =>
    match fillPairBatch next msg BATCH_SIZE s with
    | .error e => .error e
    | .ok r =>
      let emitted : List (List (E × E)) := if r.1.isEmpty then [] else [r.1]
      if r.2.2 then
        match pairBatchLoop next msg fuel r.2.1 with
        | .error e => .error e
        | .ok r2 => .ok (emitted ++ r2.1, r2.2)
      else .ok (emitted, r.2.1)

/-- ASCII decimal digit test, for the float-literal grammar below. -/
def isDigit (b : Nat) : Bool := 48 ≤ b && 57 ≥ b

/-- ASCII lower-casing of one byte (the float keywords `inf`,
`infinity`, `nan` are matched case-insensitively). -/
def lowerByte (b : Nat) : Nat := if 65 ≤ b && 90 ≥ b then b + 32 else b

/-- The numeric part of Rust's `f64` `FromStr` grammar (after the
optional sign): `Digits .? Digits? | . Digits`, then an optional
exponent `(e|E) Sign? Digits`. -/
def isF64Number (bs : List Nat) : Bool :=
  let d1 := bs.takeWhile isDigit
  let r1 := bs.dropWhile isDigit
  let mRest : Bool × List Nat :=
    match r1 with
    | 46 :: t => (!d1.isEmpty || !(t.takeWhile isDigit).isEmpty, t.dropWhile isDigit)
    | _ => (!d1.isEmpty, r1)
  match mRest.2 with
  | [] => mRest.1
  | c :: t =>
    if c = 101 ∨ c = 69 then
      let t' : List Nat :=
        match t with
        | 43 :: u => u
        | 45 :: u => u
        | _ => t
      mRest.1 && !t'.isEmpty && t'.all isDigit
    else false

/-- Acceptance of Rust's `str::parse::<f64>` on the decoded score text:
an optional sign, then `inf` / `infinity` / `nan` (case-insensitive) or
a decimal number per `isF64Number`.  The grammar is ASCII-only, so it is
checked directly on the score's bytes; `read_object` panics on a score
whose text this rejects, mirroring `parse::<f64>().unwrap()` in
`src/rdb.rs` (only acceptance is modelled, not the resulting `f64`
value). -/
def isF64Text (bs : List Nat) : Bool :=
  let body : List Nat :=
    match bs with
    | 43 :: t => t
    | 45 :: t => t
    | t => t
  let low := body.map lowerByte
  if low = [105, 110, 102] then true
  else if low = [105, 110, 102, 105, 110, 105, 116, 121] then true
  else if low = [110, 97, 110] then true
  else isF64Number body

/-- The inner batch loop of the `ZSET_ZIPLIST` arm of `read_object`:
each slot draws a member and then a score; a missing score panics in
`iter.next().expect("missing sorted set element's score")`, and a score
whose text is not valid float syntax panics in
`score_str.parse::<f64>().unwrap()`, before the `Item` is pushed. -/
def fillScoredBatch {σ : Type} (next : σ → Option (List Nat × σ)) :
    Nat → σ → Except Err (List Item × σ × Bool)
  | 0, s => .ok ([], s, true)
  | n + 1, s =>
    match next s with
    | none => .ok ([], s, false)
    | some p =>
      match next p.2 with
      | none => .error (.panicked "missing sorted set element's score")
      | some q =>
        if isF64Text q.1 then
          match fillScoredBatch next n q.2 with
          | .error e => .error e
          | .ok r => .ok (Item.mk p.1 (.raw q.1) :: r.1, r.2.1, r.2.2)
        else .error (.panicked "invalid float literal")

/-- The outer `while has_more` loop for the `ZSET_ZIPLIST` arm (see
`fillScoredBatch`). -/
def scoredBatchLoop {σ : Type} (next : σ → Option (List Nat × σ)) :
    Nat → σ → Except Err (List (List Item) × σ)
  | 0, s => .ok ([], s)
  | fuel + 1, s =>
    match fillScoredBatch next BATCH_SIZE s with
    | .error e => .error e
    | .ok r =>
      let emitted : List (List Item) := if r.1.isEmpty then [] else [r.1]
      if r.2.2 then
        match scoredBatchLoop next fuel r.2.1 with
        | .error e => .error e
        | .ok r2 => .ok (emitted ++ r2.1, r2.2)
      else .ok (emitted, r.2.1)

/-! ### `DefaultRDBParser::read_object` (`src/rdb.rs`) -/

/-- Embedding of `DefaultRDBParser::read_object` (`src/rdb.rs`): decodes
one value record of the given type byte and returns the emitted events
in order together with the remaining stream.  Container records batch
their elements through `batchLoop`/`pairBatchLoop` (the source's
repeated 64-element loops); each call passes a fuel that dominates the
possible batch count.  `MODULE`/`MODULE_2`/`STREAM_LISTPACKS` records
hit `unimplemented!()` and unknown type bytes hit `panic!`, both
embedded as `panicked` errors.  Ziplist-encoded sorted-set scores keep
their decimal text (`Score.raw`); the source's `parse::<f64>().unwrap()`
on that text is modelled through its acceptance test `isF64Text`
(panicking on rejected text), while the resulting `f64` value itself
stays uninterpreted. -/
def read_object (value_type : Nat) (meta : Meta) (input : List Nat) :
    Except Err (List Event × List Nat) :=
  if value_type = 0 then do
    let (key, r1) ← read_string input
    let (value, r2) ← read_string r1
    .ok ([.rdb (.str key value meta)], r2)
  else if value_type = 1 ∨ value_type = 2 then do
    let (key, r1) ← read_string input
    let (count, r2) ← read_length r1
    let B := batchLoop strValNext (r2.length + 2) (count.val, r2)
    .ok (B.1.map fun b =>
      if value_type = 1 then Event.rdb (.list key b meta) else Event.rdb (.set key b meta),
      B.2.2)
  else if value_type = 3 then do
    let (key, r1) ← read_string input
    let (count, r2) ← read_length r1
    let B := batchLoop (sortedSetNext 1) (r2.length + 2) (count.val, r2)
    .ok (B.1.map fun b => Event.rdb (.sortedSet key b meta), B.2.2)
  else if value_type = 5 then do
    let (key, r1) ← read_string input
    let (count, r2) ← read_length r1
    let B := batchLoop (sortedSetNext 2) (r2.length + 2) (count.val, r2)
    .ok (B.1.map fun b => Event.rdb (.sortedSet key b meta), B.2.2)
  else if value_type = 4 then do
    let (key, r1) ← read_string input
    let (count, r2) ← read_length r1
    -- `count: count * 2` is an `isize` multiply in the source; it is
    -- embedded with release-mode wrap-around (`wrapI64`), like the
    -- `flag - 0xF1` subtraction in `read_zip_list_entry`.
    match pairBatchLoop strValNext "missing hash field value" (r2.length + 2)
        (wrapI64 (count.val * 2), r2) with
    | .error e => .error e
    | .ok B =>
      .ok (B.1.map fun b =>
        Event.rdb (.hash key (b.map fun p => ⟨p.1, p.2⟩) meta), B.2.2)
  else if value_type = 9 then do
    let (key, r1) ← read_string input
    let (bytes, r2) ← read_string r1
    let B := batchLoop zipMapNext (bytes.length + 2) (bytes.drop 1)
    .ok (B.1.map fun b => Event.rdb (.hash key b meta), r2)
  else if value_type = 10 then do
    let (key, r1) ← read_string input
    let (bytes, r2) ← read_string r1
    let (cb, body) ← read_exact 2 (bytes.drop 8)
    let B := batchLoop zipListNext (leNat cb + 2) ((leNat cb : Int), body)
    .ok (B.1.map fun b => Event.rdb (.list key b meta), r2)
  else if value_type = 13 then do
    let (key, r1) ← read_string input
    let (bytes, r2) ← read_string r1
    let (cb, body) ← read_exact 2 (bytes.drop 8)
    match pairBatchLoop zipListNext "missing hash field value" (leNat cb + 2)
        ((leNat cb : Int), body) with
    | .error e => .error e
    | .ok B =>
      .ok (B.1.map fun b =>
        Event.rdb (.hash key (b.map fun p => ⟨p.1, p.2⟩) meta), r2)
  else if value_type = 12 then do
    let (key, r1) ← read_string input
    let (bytes, r2) ← read_string r1
    let (cb, body) ← read_exact 2 (bytes.drop 8)
    match scoredBatchLoop zipListNext (leNat cb + 2) ((leNat cb : Int), body) with
    | .error e => .error e
    | .ok B =>
      .ok (B.1.map fun b => Event.rdb (.sortedSet key b meta), r2)
  else if value_type = 11 then do
    let (key, r1) ← read_string input
    let (bytes, r2) ← read_string r1
    let (e4, c1) ← read_exact 4 bytes
    let (l4, c2) ← read_exact 4 c1
    let B := batchLoop (intSetNext (toSigned 32 (leNat e4)))
      (leNat l4 + 2) ((leNat l4 : Int), c2)
    .ok (B.1.map fun b => Event.rdb (.set key b meta), r2)
  else if value_type = 14 then do
    let (key, r1) ← read_string input
    let (count, r2) ← read_length r1
    let B := batchLoop quickListNext (count.val.toNat * 1024 + r2.length + 2)
      (count.val, none, r2)
    .ok (B.1.map fun b => Event.rdb (.list key b meta), B.2.2.2)
  else if value_type = 6 ∨ value_type = 7 then
    .error (.panicked "not implemented")
  else if value_type = 15 then
    .error (.panicked "not implemented")
  else
    .error (.panicked "unknown data type")

/-! ### `DefaultRDBParser::parse` (`src/rdb.rs`) -/

/-- Outcome of one iteration of the opcode loop of
`DefaultRDBParser::parse`: either continue with the events emitted by
the iteration and the (possibly updated) current db, or stop (`EOF`
opcode). -/
inductive StepOut
  | cont (events : List Event) (db : Int) (rest : List Nat)
  | halt (rest : List Nat)

/-- One iteration of the opcode loop of `DefaultRDBParser::parse`
(`src/rdb.rs`): reads an opcode byte and dispatches.  `AUX` reads two
strings; `SELECTDB` (0xFE) reads a length, updates the current db and
emits the synthetic `Event::AOF(SELECT(db as i32))`; `RESIZEDB` reads
two lengths; `EXPIRETIME_MS`/`EXPIRETIME` stash the expire time in the
pending meta and chain into an optional `FREQ`/`IDLE` prefix before the
value type; `FREQ`/`IDLE` stash eviction info; `MODULE_AUX` is
`unimplemented!()`; `EOF` consumes the 8-byte CRC when the rdb version
is at least 5 and halts; any other byte is a value type decoded by
`read_object` with the accumulated meta. -/
def parseStep (version db : Int) (input : List Nat) : Except Err StepOut := do
  let (data_type, r) ← read_u8 input
  if data_type = 250 then do
    let (_, r1) ← read_string r
    let (_, r2) ← read_string r1
    .ok (.cont [] db r2)
  else if data_type = 254 then do
    let (l, r1) ← read_length r
    .ok (.cont [.aof (.select (wrapI32 l.val))] l.val r1)
  else if data_type = 251 then do
    let (_, r1) ← read_length r
    let (_, r2) ← read_length r1
    .ok (.cont [] db r2)
  else if data_type = 252 ∨ data_type = 253 then do
    let (expired_time, r1) ←
      if data_type = 252 then read_integer 8 false r else read_integer 4 false r
    let meta0 : Meta :=
      ⟨db, some (if data_type = 252 then (.millisecond, expired_time)
                 else (.second, expired_time)), none⟩
    let (value_type, r2) ← read_u8 r1
    if value_type = 249 then do
      let (val, r3) ← read_u8 r2
      let (vt, r4) ← read_u8 r3
      let (evs, r5) ← read_object vt { meta0 with evict := some (.lfu, (val : Int)) } r4
      .ok (.cont evs db r5)
    else if value_type = 248 then do
      let (l, r3) ← read_length r2
      let (vt, r4) ← read_u8 r3
      let (evs, r5) ← read_object vt { meta0 with evict := some (.lru, l.val) } r4
      .ok (.cont evs db r5)
    else do
      let (evs, r3) ← read_object value_type meta0 r2
      .ok (.cont evs db r3)
  else if data_type = 249 then do
    let (val, r1) ← read_u8 r
    let (vt, r2) ← read_u8 r1
    let (evs, r3) ← read_object vt ⟨db, none, some (.lfu, (val : Int))⟩ r2
    .ok (.cont evs db r3)
  else if data_type = 248 then do
    let (l, r1) ← read_length r
    let (vt, r2) ← read_u8 r1
    let (evs, r3) ← read_object vt ⟨db, none, some (.lru, l.val)⟩ r2
    .ok (.cont evs db r3)
  else if data_type = 247 then
    .error (.panicked "not implemented")
  else if data_type = 255 then
    if 5 ≤ version then do
      let (_, r1) ← read_integer 8 true r
      .ok (.halt r1)
    else .ok (.halt r)
  else do
    let (evs, r1) ← read_object data_type ⟨db, none, none⟩ r
    .ok (.cont evs db r1)

/-- The `while self.running.load(..)` opcode loop of
`DefaultRDBParser::parse`.  `running` models the cancellation flag
(constant here: the concurrent flip is outside this embedding).  Each
iteration consumes at least the opcode byte, so fuel `input.length + 1`
always suffices; exhausted fuel is an unreachable I/O error. -/
def parseLoop (running : Bool) (version : Int) :
    Nat → Int → List Nat → Except Err (List Event × List Nat)
  | 0, _, _ => .error .ioErr
  | fuel + 1, db, input =>
    if running then
      match parseStep version db input with
      | .error e => .error e
      | .ok (.halt rest) => .ok ([], rest)
      | .ok (.cont evs db' rest) =>
        match parseLoop running version fuel db' rest with
        | .error e => .error e
        | .ok (evs', rest') => .ok (evs ++ evs', rest')
    else .ok ([], input)

/-- Embedding of `DefaultRDBParser::parse` (`src/rdb.rs`): emits
`Object::BOR`, reads the 5-byte magic and the 4-byte version (parsed
with `from_utf8_lossy` + `parse::<isize>().unwrap()`, which panics when
the bytes are not a decimal number — a byte the lossy conversion
replaces is never a digit, so `parseIsize` on the raw bytes agrees),
runs the opcode loop from db 0, then emits `Object::EOR`.  On success
the returned list is the events in emission order. -/
def parse (running : Bool) (input : List Nat) : Except Err (List Event × List Nat) := do
  let (_, r1) ← read_exact 5 input
  let (verBytes, r2) ← read_exact 4 r1
  match parseIsize verBytes with
  | none => .error (.panicked "rdb version does not parse")
  | some version =>
    match parseLoop running version (r2.length + 1) 0 r2 with
    | .error e => .error e
    | .ok (evs, rest) => .ok (.rdb .bor :: (evs ++ [.rdb .eor]), rest)

/-! ### Claim C8 -/

theorem read_exact_cons_1 (b0 : Nat) (rest : List Nat) :
    read_exact 1 (b0 :: rest) = .ok ([b0], rest) := by
  simp [read_exact, List.take, List.drop]

theorem read_exact_cons_2 (b0 b1 : Nat) (rest : List Nat) :
    read_exact 2 (b0 :: b1 :: rest) = .ok ([b0, b1], rest) := by
  simp [read_exact, List.take, List.drop]

theorem read_exact_cons_3 (b0 b1 b2 : Nat) (rest : List Nat) :
    read_exact 3 (b0 :: b1 :: b2 :: rest) = .ok ([b0, b1, b2], rest) := by
  simp [read_exact, List.take, List.drop]

/-- Claim C8: `read_zip_list_entry` renders integer encodings as decimal
byte strings: after the (single-byte, `< 254`) prev-length field, tag
`0xFE` reads a signed 8-bit integer, `0xC0` a signed 16-bit
little-endian, `0xF0` a signed 24-bit little-endian, `0xD0` a signed
32-bit little-endian, `0xE0` a signed 64-bit little-endian, and the
inline tags `0xF1..0xFD` decode to the values 0..12. -/
theorem C8_ziplist_integer_encodings :
    ∀ p : Nat, p < 254 →
      (∀ b rest, read_zip_list_entry (p :: 0xFE :: b :: rest) =
        .ok (intDecimal (toSigned 8 b), rest)) ∧
      (∀ b0 b1 rest, read_zip_list_entry (p :: 0xC0 :: b0 :: b1 :: rest) =
        .ok (intDecimal (toSigned 16 (leNat [b0, b1])), rest)) ∧
      (∀ b0 b1 b2 rest, read_zip_list_entry (p :: 0xF0 :: b0 :: b1 :: b2 :: rest) =
        .ok (intDecimal (toSigned 24 (leNat [b0, b1, b2])), rest)) ∧
      (∀ b0 b1 b2 b3 rest, read_zip_list_entry (p :: 0xD0 :: b0 :: b1 :: b2 :: b3 :: rest) =
        .ok (intDecimal (toSigned 32 (leNat [b0, b1, b2, b3])), rest)) ∧
      (∀ b0 b1 b2 b3 b4 b5 b6 b7 rest,
        read_zip_list_entry (p :: 0xE0 :: b0 :: b1 :: b2 :: b3 :: b4 :: b5 :: b6 :: b7 :: rest) =
          .ok (intDecimal (toSigned 64 (leNat [b0, b1, b2, b3, b4, b5, b6, b7])), rest)) ∧
      (∀ f rest, 241 ≤ f → f ≤ 253 →
        read_zip_list_entry (p :: f :: rest) = .ok (intDecimal ((f - 241 : Nat)), rest)) := by
  intro p hp
  have hnp : ¬ 254 ≤ p := by omega
  refine ⟨fun b rest => ?_, fun b0 b1 rest => ?_, fun b0 b1 b2 rest => ?_,
    fun b0 b1 b2 b3 rest => ?_, fun b0 b1 b2 b3 b4 b5 b6 b7 rest => ?_,
    fun f rest hf1 hf2 => ?_⟩
  · simp [read_zip_list_entry, read_u8, Bind.bind, Except.bind, Pure.pure, Except.pure,
      hnp, read_exact_cons_1, leNat]
  · simp [read_zip_list_entry, read_u8, Bind.bind, Except.bind, Pure.pure, Except.pure,
      hnp, read_exact_cons_2]
  · simp [read_zip_list_entry, read_u8, Bind.bind, Except.bind, Pure.pure, Except.pure,
      hnp, read_exact_cons_3]
  · simp [read_zip_list_entry, read_u8, Bind.bind, Except.bind, Pure.pure, Except.pure,
      hnp, read_exact_cons_4]
  · simp [read_zip_list_entry, read_u8, Bind.bind, Except.bind, Pure.pure, Except.pure,
      hnp, read_exact_cons_8]
  · have hshr : f >>> 6 = 3 := by
      rw [Nat.shiftRight_eq_div_pow]
      omega
    have h254 : f ≠ 254 := by omega
    have h192 : f ≠ 192 := by omega
    have h240 : f ≠ 240 := by omega
    have h208 : f ≠ 208 := by omega
    have h224 : f ≠ 224 := by omega
    have hmod : (f + 256 - 241) % 256 = f - 241 := by omega
    simp [read_zip_list_entry, read_u8, Bind.bind, Except.bind, Pure.pure, Except.pure,
      hnp, hshr, h254, h192, h240, h208, h224, hmod]
    have harg : ((f : Int) + 15) % 256 = ((f - 241 : Nat) : Int) := by
      rw [Nat.cast_sub hf1]
      omega
    rw [harg]

/-- Witness for `C8_ziplist_integer_encodings`: the inline tag `0xF3`
decodes to the decimal rendering of 2. -/
theorem C8_witness :
    read_zip_list_entry [0, 0xF3, 9] = .ok ([50], [9]) := by
  have h := (C8_ziplist_integer_encodings 0 (by decide)).2.2.2.2.2 0xF3 [9]
    (by decide) (by decide)
  simpa using h

/-! ### Claim C9 -/

/-- The `ID` struct of `src/rdb.rs` (stream entry id). -/
structure ID where
  ms : Int
  seq : Int
  deriving DecidableEq

/-- `i64::cmp` as used by `Ord for ID`. -/
def intCmp (x y : Int) : Ordering :=
  if x < y then .lt else if x = y then .eq else .gt

/-- Embedding of `Ord::cmp for ID` (`src/rdb.rs`): compare `ms`, and on
equality compare `seq`. -/
def idCmp (a b : ID) : Ordering :=
  let order := intCmp a.ms b.ms
  if order = .eq then intCmp a.seq b.seq else order

/-- Embedding of `PartialOrd::lt for ID` (`src/rdb.rs`). -/
def idLt (a b : ID) : Bool :=
  match idCmp a b with
  | .lt => true
  | .eq => false
  | .gt => false

/-- Embedding of `PartialOrd::le for ID` (`src/rdb.rs`). -/
def idLe (a b : ID) : Bool :=
  match idCmp a b with
  | .lt => true
  | .eq => true
  | .gt => false

/-- Embedding of `PartialOrd::gt for ID` (`src/rdb.rs`). -/
def idGt (a b : ID) : Bool :=
  match idCmp a b with
  | .lt => false
  | .eq => false
  | .gt => true

/-- Embedding of `PartialOrd::ge for ID` (`src/rdb.rs`). -/
def idGe (a b : ID) : Bool :=
  match idCmp a b with
  | .lt => false
  | .eq => true
  | .gt => true

/-- Embedding of `PartialEq::eq for ID` (`src/rdb.rs`). -/
def idEq (a b : ID) : Bool :=
  a.ms = b.ms && a.seq = b.seq

/-- Embedding of `PartialEq::ne for ID` (`src/rdb.rs`). -/
def idNe (a b : ID) : Bool :=
  a.ms ≠ b.ms || a.seq ≠ b.seq

/-- Claim C9: `StreamID` comparison is the lexicographic order on
`(ms, seq)`, and the comparison operators are mutually consistent with
it: `lt` is lexicographic strict order, `le` is `lt`-or-`eq`, `gt` and
`ge` are the mirrored forms, `eq` is componentwise equality and `ne` its
negation. -/
theorem C9_stream_id_lexicographic :
    ∀ a b : ID,
      (idLt a b = true ↔ (a.ms < b.ms ∨ (a.ms = b.ms ∧ a.seq < b.seq))) ∧
      (idLe a b = true ↔ (idLt a b = true ∨ idEq a b = true)) ∧
      (idGt a b = true ↔ idLt b a = true) ∧
      (idGe a b = true ↔ idLe b a = true) ∧
      (idEq a b = true ↔ (a.ms = b.ms ∧ a.seq = b.seq)) ∧
      (idNe a b = true ↔ idEq a b = false) := by
  intro a b
  simp only [idLt, idLe, idGt, idGe, idEq, idNe, idCmp, intCmp]
  rcases lt_trichotomy a.ms b.ms with hms | hms | hms <;>
    rcases lt_trichotomy a.seq b.seq with hseq | hseq | hseq <;>
      simp [hms, hseq, ne_of_lt, ne_of_gt, lt_asymm, le_of_lt, lt_irrefl]

/-- Witness for `C9_stream_id_lexicographic` at `(0,0)` and `(0,1)`
(the pair from the `test_id_cmp` unit test). -/
theorem C9_witness :
    idLt ⟨0, 0⟩ ⟨0, 1⟩ = true :=
  (C9_stream_id_lexicographic ⟨0, 0⟩ ⟨0, 1⟩).1.mpr (Or.inr ⟨rfl, by decide⟩)

/-! ### Claim C6 -/

/-- Number of container elements an event carries (0 for non-container
events). -/
def eventElemCount : Event → Nat
  | .rdb (.list _ vs _) => vs.length
  | .rdb (.set _ ms _) => ms.length
  | .rdb (.sortedSet _ is _) => is.length
  | .rdb (.hash _ fs _) => fs.length
  | _ => 0

/-- The key an event carries, when it is a data event. -/
def eventKey : Event → Option (List Nat)
  | .rdb (.str k _ _) => some k
  | .rdb (.list k _ _) => some k
  | .rdb (.set k _ _) => some k
  | .rdb (.sortedSet k _ _) => some k
  | .rdb (.hash k _ _) => some k
  | .rdb (.module k _) => some k
  | .rdb (.stream k _) => some k
  | _ => none

/-- The meta an event carries, when it is a data event. -/
def eventMeta : Event → Option Meta
  | .rdb (.str _ _ m) => some m
  | .rdb (.list _ _ m) => some m
  | .rdb (.set _ _ m) => some m
  | .rdb (.sortedSet _ _ m) => some m
  | .rdb (.hash _ _ m) => some m
  | .rdb (.module _ m) => some m
  | .rdb (.stream _ m) => some m
  | _ => none

theorem fillBatch_length_le {σ E : Type} (next : σ → Option (E × σ)) :
    ∀ (n : Nat) (s : σ), (fillBatch next n s).1.length ≤ n := by
  intro n
  induction n with
  | zero => intro s; simp [fillBatch]
  | succ n ih =>
    intro s
    simp only [fillBatch]
    cases h : next s with
    | none => simp
    | some p =>
      simp only [List.length_cons]
      exact Nat.succ_le_succ (ih p.2)

theorem batchLoop_mem {σ E : Type} (next : σ → Option (E × σ)) :
    ∀ (fuel : Nat) (s : σ) (b : List E), b ∈ (batchLoop next fuel s).1 →
      b ≠ [] ∧ b.length ≤ BATCH_SIZE := by
  intro fuel
  induction fuel with
  | zero => intro s b hb; simp [batchLoop] at hb
  | succ fuel ih =>
    intro s b hb
    simp only [batchLoop] at hb
    by_cases hm : (fillBatch next BATCH_SIZE s).2.2 <;> simp only [hm, if_true, if_false] at hb
    · rcases List.mem_append.mp hb with h1 | h2
      · by_cases he : (fillBatch next BATCH_SIZE s).1.isEmpty <;> simp [he] at h1
        subst h1
        exact ⟨by simpa [List.isEmpty_iff] using he, fillBatch_length_le next _ _⟩
      · exact ih _ _ h2
    · by_cases he : (fillBatch next BATCH_SIZE s).1.isEmpty <;> simp [he] at hb
      subst hb
      exact ⟨by simpa [List.isEmpty_iff] using he, fillBatch_length_le next _ _⟩

theorem fillPairBatch_ok_length {σ E : Type} (next : σ → Option (E × σ)) (msg : String) :
    ∀ (n : Nat) (s : σ) (r : List (E × E) × σ × Bool),
      fillPairBatch next msg n s = .ok r → r.1.length ≤ n := by
  intro n
  induction n with
  | zero =>
    intro s r h
    simp only [fillPairBatch] at h
    cases h
    simp
  | succ n ih =>
    intro s r h
    simp only [fillPairBatch] at h
    cases h1 : next s with
    | none => simp only [h1] at h; cases h; simp
    | some p =>
      simp only [h1] at h
      cases h2 : next p.2 with
      | none => simp only [h2] at h; cases h
      | some q =>
        simp only [h2] at h
        cases h3 : fillPairBatch next msg n q.2 with
        | error e => simp only [h3] at h; cases h
        | ok r3 =>
          simp only [h3] at h
          cases h
          simpa using Nat.succ_le_succ (ih q.2 r3 h3)

theorem pairBatchLoop_mem {σ E : Type} (next : σ → Option (E × σ)) (msg : String) :
    ∀ (fuel : Nat) (s : σ) (out : List (List (E × E)) × σ) (b : List (E × E)),
      pairBatchLoop next msg fuel s = .ok out → b ∈ out.1 →
      b ≠ [] ∧ b.length ≤ BATCH_SIZE := by
  intro fuel
  induction fuel with
  | zero =>
    intro s out b h hb
    simp only [pairBatchLoop] at h
    cases h
    simp at hb
  | succ fuel ih =>
    intro s out b h hb
    simp only [pairBatchLoop] at h
    cases h1 : fillPairBatch next msg BATCH_SIZE s with
    | error e => simp only [h1] at h; cases h
    | ok r =>
      simp only [h1] at h
      by_cases hm : r.2.2 <;> simp only [hm, if_true, if_false] at h
      · cases h2 : pairBatchLoop next msg fuel r.2.1 with
        | error e => simp only [h2] at h; cases h
        | ok r2 =>
          simp only [h2] at h
          cases h
          rcases List.mem_append.mp hb with hb1 | hb2
          · by_cases he : r.1.isEmpty <;> simp [he] at hb1
            subst hb1
            exact ⟨by simpa [List.isEmpty_iff] using he,
              fillPairBatch_ok_length next msg _ _ _ h1⟩
          · exact ih _ _ _ h2 hb2
      · cases h
        by_cases he : r.1.isEmpty <;> simp [he] at hb
        subst hb
        exact ⟨by simpa [List.isEmpty_iff] using he,
          fillPairBatch_ok_length next msg _ _ _ h1⟩

theorem fillScoredBatch_ok_length {σ : Type} (next : σ → Option (List Nat × σ)) :
    ∀ (n : Nat) (s : σ) (r : List Item × σ × Bool),
      fillScoredBatch next n s = .ok r → r.1.length ≤ n := by
  intro n
  induction n with
  | zero =>
    intro s r h
    simp only [fillScoredBatch] at h
    cases h
    simp
  | succ n ih =>
    intro s r h
    simp only [fillScoredBatch] at h
    cases h1 : next s with
    | none => simp only [h1] at h; cases h; simp
    | some p =>
      simp only [h1] at h
      cases h2 : next p.2 with
      | none => simp only [h2] at h; cases h
      | some q =>
        simp only [h2] at h
        by_cases hf : isF64Text q.1
        · rw [if_pos hf] at h
          cases h3 : fillScoredBatch next n q.2 with
          | error e => simp only [h3] at h; cases h
          | ok r3 =>
            simp only [h3] at h
            cases h
            simpa using Nat.succ_le_succ (ih q.2 r3 h3)
        · rw [if_neg hf] at h
          cases h

theorem scoredBatchLoop_mem {σ : Type} (next : σ → Option (List Nat × σ)) :
    ∀ (fuel : Nat) (s : σ) (out : List (List Item) × σ) (b : List Item),
      scoredBatchLoop next fuel s = .ok out → b ∈ out.1 →
      b ≠ [] ∧ b.length ≤ BATCH_SIZE := by
  intro fuel
  induction fuel with
  | zero =>
    intro s out b h hb
    simp only [scoredBatchLoop] at h
    cases h
    simp at hb
  | succ fuel ih =>
    intro s out b h hb
    simp only [scoredBatchLoop] at h
    cases h1 : fillScoredBatch next BATCH_SIZE s with
    | error e => simp only [h1] at h; cases h
    | ok r =>
      simp only [h1] at h
      by_cases hm : r.2.2 <;> simp only [hm, if_true, if_false] at h
      · cases h2 : scoredBatchLoop next fuel r.2.1 with
        | error e => simp only [h2] at h; cases h
        | ok r2 =>
          simp only [h2] at h
          cases h
          rcases List.mem_append.mp hb with hb1 | hb2
          · by_cases he : r.1.isEmpty <;> simp [he] at hb1
            subst hb1
            exact ⟨by simpa [List.isEmpty_iff] using he,
              fillScoredBatch_ok_length next _ _ _ h1⟩
          · exact ih _ _ _ h2 hb2
      · cases h
        by_cases he : r.1.isEmpty <;> simp [he] at hb
        subst hb
        exact ⟨by simpa [List.isEmpty_iff] using he,
          fillScoredBatch_ok_length next _ _ _ h1⟩

theorem two_le_of_sum_gt (l : List Nat) (hle : ∀ x ∈ l, x ≤ BATCH_SIZE)
    (h : BATCH_SIZE < l.sum) : 2 ≤ l.length := by
  match l with
  | [] => simp [BATCH_SIZE] at h
  | [a] =>
    have := hle a (by simp)
    simp [List.sum] at h
    omega
  | a :: b :: t => simp

/-- Shared conclusion shape for the container arms of `read_object`:
everything C6 asserts about a list of events that is `batches.map mk`. -/
theorem mapped_batches_good {E : Type} (meta : Meta) (k : List Nat) (mk : List E → Event)
    (batches : List (List E))
    (hb : ∀ b ∈ batches, b ≠ [] ∧ b.length ≤ BATCH_SIZE)
    (hcount : ∀ b, eventElemCount (mk b) = b.length)
    (hkey : ∀ b, eventKey (mk b) = some k)
    (hmeta : ∀ b, eventMeta (mk b) = some meta) :
    (∀ e ∈ batches.map mk, 0 < eventElemCount e ∧ eventElemCount e ≤ BATCH_SIZE) ∧
    (∀ e ∈ batches.map mk, eventKey e = some k ∧ eventMeta e = some meta) ∧
    (BATCH_SIZE < ((batches.map mk).map eventElemCount).sum →
      2 ≤ (batches.map mk).length) := by
  refine ⟨?_, ?_, ?_⟩
  · intro e he
    obtain ⟨b, hbm, rfl⟩ := List.mem_map.mp he
    obtain ⟨hne, hlen⟩ := hb b hbm
    rw [hcount]
    exact ⟨List.length_pos.mpr hne, hlen⟩
  · intro e he
    obtain ⟨b, hbm, rfl⟩ := List.mem_map.mp he
    exact ⟨hkey b, hmeta b⟩
  · intro hsum
    have hlist : ∀ x ∈ (batches.map mk).map eventElemCount, x ≤ BATCH_SIZE := by
      intro x hx
      obtain ⟨e, he, rfl⟩ := List.mem_map.mp hx
      obtain ⟨b, hbm, rfl⟩ := List.mem_map.mp he
      rw [hcount]
      exact (hb b hbm).2
    have := two_le_of_sum_gt _ hlist hsum
    simpa using this

/-- Claim C6: for every container record (List, Set, SortedSet, Hash, in
plain and packed encodings), each event emitted by `read_object` carries
between 1 and `BATCH_SIZE` (64) elements, all events of the record carry
the same key and the same `Meta`, and when the elements delivered exceed
64 the record is delivered as at least two events. -/
theorem C6_container_batching :
    ∀ (vt : Nat) (meta : Meta) (input : List Nat) (events : List Event) (rest : List Nat),
      vt = 1 ∨ vt = 2 ∨ vt = 3 ∨ vt = 5 ∨ vt = 4 ∨ vt = 9 ∨ vt = 10 ∨ vt = 11 ∨
        vt = 12 ∨ vt = 13 ∨ vt = 14 →
      read_object vt meta input = .ok (events, rest) →
      (∀ e ∈ events, 0 < eventElemCount e ∧ eventElemCount e ≤ BATCH_SIZE) ∧
      (∃ k, ∀ e ∈ events, eventKey e = some k ∧ eventMeta e = some meta) ∧
      (BATCH_SIZE < (events.map eventElemCount).sum → 2 ≤ events.length) := by
  intro vt meta input events rest hvt h
  rcases hvt with rfl | rfl | rfl | rfl | rfl | rfl | rfl | rfl | rfl | rfl | rfl
  · norm_num [read_object] at h
    rw [bind_ok_iff] at h
    obtain ⟨⟨key, r1⟩, hk, h⟩ := h
    rw [bind_ok_iff] at h
    obtain ⟨⟨cnt, r2⟩, hc, h⟩ := h
    simp only [Except.ok.injEq, Prod.mk.injEq] at h
    obtain ⟨hev, hrest⟩ := h
    subst hev
    obtain ⟨g1, g2, g3⟩ := mapped_batches_good meta key
      (fun b => Event.rdb (.list key b meta))
      (batchLoop strValNext (r2.length + 2) (cnt.val, r2)).1
      (fun b hb => batchLoop_mem _ _ _ _ hb)
      (fun b => rfl) (fun b => rfl) (fun b => rfl)
    exact ⟨g1, ⟨key, g2⟩, g3⟩
  · norm_num [read_object] at h
    rw [bind_ok_iff] at h
    obtain ⟨⟨key, r1⟩, hk, h⟩ := h
    rw [bind_ok_iff] at h
    obtain ⟨⟨cnt, r2⟩, hc, h⟩ := h
    simp only [Except.ok.injEq, Prod.mk.injEq] at h
    obtain ⟨hev, hrest⟩ := h
    subst hev
    obtain ⟨g1, g2, g3⟩ := mapped_batches_good meta key
      (fun b => Event.rdb (.set key b meta))
      (batchLoop strValNext (r2.length + 2) (cnt.val, r2)).1
      (fun b hb => batchLoop_mem _ _ _ _ hb)
      (fun b => rfl) (fun b => rfl) (fun b => rfl)
    exact ⟨g1, ⟨key, g2⟩, g3⟩
  · norm_num [read_object] at h
    rw [bind_ok_iff] at h
    obtain ⟨⟨key, r1⟩, hk, h⟩ := h
    rw [bind_ok_iff] at h
    obtain ⟨⟨cnt, r2⟩, hc, h⟩ := h
    simp only [Except.ok.injEq, Prod.mk.injEq] at h
    obtain ⟨hev, hrest⟩ := h
    subst hev
    obtain ⟨g1, g2, g3⟩ := mapped_batches_good meta key
      (fun b => Event.rdb (.sortedSet key b meta))
      (batchLoop (sortedSetNext 1) (r2.length + 2) (cnt.val, r2)).1
      (fun b hb => batchLoop_mem _ _ _ _ hb)
      (fun b => rfl) (fun b => rfl) (fun b => rfl)
    exact ⟨g1, ⟨key, g2⟩, g3⟩
  · norm_num [read_object] at h
    rw [bind_ok_iff] at h
    obtain ⟨⟨key, r1⟩, hk, h⟩ := h
    rw [bind_ok_iff] at h
    obtain ⟨⟨cnt, r2⟩, hc, h⟩ := h
    simp only [Except.ok.injEq, Prod.mk.injEq] at h
    obtain ⟨hev, hrest⟩ := h
    subst hev
    obtain ⟨g1, g2, g3⟩ := mapped_batches_good meta key
      (fun b => Event.rdb (.sortedSet key b meta))
      (batchLoop (sortedSetNext 2) (r2.length + 2) (cnt.val, r2)).1
      (fun b hb => batchLoop_mem _ _ _ _ hb)
      (fun b => rfl) (fun b => rfl) (fun b => rfl)
    exact ⟨g1, ⟨key, g2⟩, g3⟩
  · norm_num [read_object] at h
    rw [bind_ok_iff] at h
    obtain ⟨⟨key, r1⟩, hk, h⟩ := h
    rw [bind_ok_iff] at h
    obtain ⟨⟨cnt, r2⟩, hc, h⟩ := h
    cases hB : pairBatchLoop strValNext "missing hash field value" (r2.length + 2)
        (wrapI64 (cnt.val * 2), r2) with
    | error e => simp only [hB] at h; cases h
    | ok B =>
      simp only [hB, Except.ok.injEq, Prod.mk.injEq] at h
      obtain ⟨hev, hrest⟩ := h
      subst hev
      obtain ⟨g1, g2, g3⟩ := mapped_batches_good meta key
        (fun b => Event.rdb (.hash key (b.map fun p => Field.mk p.1 p.2) meta)) B.1
        (fun b hb => pairBatchLoop_mem _ _ _ _ _ _ hB hb)
        (fun b => by simp [eventElemCount]) (fun b => rfl) (fun b => rfl)
      exact ⟨g1, ⟨key, g2⟩, g3⟩
  · norm_num [read_object] at h
    rw [bind_ok_iff] at h
    obtain ⟨⟨key, r1⟩, hk, h⟩ := h
    rw [bind_ok_iff] at h
    obtain ⟨⟨bytes, r2⟩, hb2, h⟩ := h
    simp only [Except.ok.injEq, Prod.mk.injEq] at h
    obtain ⟨hev, hrest⟩ := h
    subst hev
    obtain ⟨g1, g2, g3⟩ := mapped_batches_good meta key
      (fun b => Event.rdb (.hash key b meta))
      (batchLoop zipMapNext (bytes.length + 2) bytes.tail).1
      (fun b hb => batchLoop_mem _ _ _ _ hb)
      (fun b => rfl) (fun b => rfl) (fun b => rfl)
    exact ⟨g1, ⟨key, g2⟩, g3⟩
  · norm_num [read_object] at h
    rw [bind_ok_iff] at h
    obtain ⟨⟨key, r1⟩, hk, h⟩ := h
    rw [bind_ok_iff] at h
    obtain ⟨⟨bytes, r2⟩, hb2, h⟩ := h
    rw [bind_ok_iff] at h
    obtain ⟨⟨cb, body⟩, hcb, h⟩ := h
    simp only [Except.ok.injEq, Prod.mk.injEq] at h
    obtain ⟨hev, hrest⟩ := h
    subst hev
    obtain ⟨g1, g2, g3⟩ := mapped_batches_good meta key
      (fun b => Event.rdb (.list key b meta))
      (batchLoop zipListNext (leNat cb + 2) ((leNat cb : Int), body)).1
      (fun b hb => batchLoop_mem _ _ _ _ hb)
      (fun b => rfl) (fun b => rfl) (fun b => rfl)
    exact ⟨g1, ⟨key, g2⟩, g3⟩
  · norm_num [read_object] at h
    rw [bind_ok_iff] at h
    obtain ⟨⟨key, r1⟩, hk, h⟩ := h
    rw [bind_ok_iff] at h
    obtain ⟨⟨bytes, r2⟩, hb2, h⟩ := h
    rw [bind_ok_iff] at h
    obtain ⟨⟨e4, c1⟩, he4, h⟩ := h
    rw [bind_ok_iff] at h
    obtain ⟨⟨l4, c2⟩, hl4, h⟩ := h
    simp only [Except.ok.injEq, Prod.mk.injEq] at h
    obtain ⟨hev, hrest⟩ := h
    subst hev
    obtain ⟨g1, g2, g3⟩ := mapped_batches_good meta key
      (fun b => Event.rdb (.set key b meta))
      (batchLoop (intSetNext (toSigned 32 (leNat e4))) (leNat l4 + 2)
        ((leNat l4 : Int), c2)).1
      (fun b hb => batchLoop_mem _ _ _ _ hb)
      (fun b => rfl) (fun b => rfl) (fun b => rfl)
    exact ⟨g1, ⟨key, g2⟩, g3⟩
  · norm_num [read_object] at h
    rw [bind_ok_iff] at h
    obtain ⟨⟨key, r1⟩, hk, h⟩ := h
    rw [bind_ok_iff] at h
    obtain ⟨⟨bytes, r2⟩, hb2, h⟩ := h
    rw [bind_ok_iff] at h
    obtain ⟨⟨cb, body⟩, hcb, h⟩ := h
    cases hB : scoredBatchLoop zipListNext (leNat cb + 2) ((leNat cb : Int), body) with
    | error e => simp only [hB] at h; cases h
    | ok B =>
      simp only [hB, Except.ok.injEq, Prod.mk.injEq] at h
      obtain ⟨hev, hrest⟩ := h
      subst hev
      obtain ⟨g1, g2, g3⟩ := mapped_batches_good meta key
        (fun b => Event.rdb (.sortedSet key b meta)) B.1
        (fun b hb => scoredBatchLoop_mem _ _ _ _ _ hB hb)
        (fun b => rfl) (fun b => rfl) (fun b => rfl)
      exact ⟨g1, ⟨key, g2⟩, g3⟩
  · norm_num [read_object] at h
    rw [bind_ok_iff] at h
    obtain ⟨⟨key, r1⟩, hk, h⟩ := h
    rw [bind_ok_iff] at h
    obtain ⟨⟨bytes, r2⟩, hb2, h⟩ := h
    rw [bind_ok_iff] at h
    obtain ⟨⟨cb, body⟩, hcb, h⟩ := h
    cases hB : pairBatchLoop zipListNext "missing hash field value"
        (leNat cb + 2) ((leNat cb : Int), body) with
    | error e => simp only [hB] at h; cases h
    | ok B =>
      simp only [hB, Except.ok.injEq, Prod.mk.injEq] at h
      obtain ⟨hev, hrest⟩ := h
      subst hev
      obtain ⟨g1, g2, g3⟩ := mapped_batches_good meta key
        (fun b => Event.rdb (.hash key (b.map fun p => Field.mk p.1 p.2) meta)) B.1
        (fun b hb => pairBatchLoop_mem _ _ _ _ _ _ hB hb)
        (fun b => by simp [eventElemCount]) (fun b => rfl) (fun b => rfl)
      exact ⟨g1, ⟨key, g2⟩, g3⟩
  · norm_num [read_object] at h
    rw [bind_ok_iff] at h
    obtain ⟨⟨key, r1⟩, hk, h⟩ := h
    rw [bind_ok_iff] at h
    obtain ⟨⟨cnt, r2⟩, hc, h⟩ := h
    simp only [Except.ok.injEq, Prod.mk.injEq] at h
    obtain ⟨hev, hrest⟩ := h
    subst hev
    obtain ⟨g1, g2, g3⟩ := mapped_batches_good meta key
      (fun b => Event.rdb (.list key b meta))
      (batchLoop quickListNext (cnt.val.toNat * 1024 + r2.length + 2)
        (cnt.val, none, r2)).1
      (fun b hb => batchLoop_mem _ _ _ _ hb)
      (fun b => rfl) (fun b => rfl) (fun b => rfl)
    exact ⟨g1, ⟨key, g2⟩, g3⟩

/-- Witness for `C6_container_batching`: a two-element LIST record is
delivered as one event with two elements, the record key and meta. -/
theorem C6_witness :
    read_object 1 ⟨0, none, none⟩ [1, 107, 2, 1, 98, 1, 99] =
      .ok ([.rdb (.list [107] [[98], [99]] ⟨0, none, none⟩)], []) ∧
    ((∀ e ∈ [Event.rdb (.list [107] [[98], [99]] ⟨0, none, none⟩)],
        0 < eventElemCount e ∧ eventElemCount e ≤ BATCH_SIZE) ∧
      (∃ k, ∀ e ∈ [Event.rdb (.list [107] [[98], [99]] ⟨0, none, none⟩)],
        eventKey e = some k ∧ eventMeta e = some ⟨0, none, none⟩) ∧
      (BATCH_SIZE <
          ([Event.rdb (.list [107] [[98], [99]] ⟨0, none, none⟩)].map eventElemCount).sum →
        2 ≤ [Event.rdb (.list [107] [[98], [99]] ⟨0, none, none⟩)].length)) :=
  ⟨rfl, C6_container_batching 1 ⟨0, none, none⟩ [1, 107, 2, 1, 98, 1, 99]
    [.rdb (.list [107] [[98], [99]] ⟨0, none, none⟩)] [] (Or.inl rfl) rfl⟩

/-! ### Claims C1 and C5: the event stream of `parse` -/

/-- The db recorded in an object's meta (`none` for the bracket
markers, which carry no meta). -/
def objDb : Obj → Option Int
  | .str _ _ m => some m.db
  | .list _ _ m => some m.db
  | .set _ _ m => some m.db
  | .sortedSet _ _ m => some m.db
  | .hash _ _ m => some m.db
  | .module _ m => some m.db
  | .stream _ m => some m.db
  | .bor => none
  | .eor => none

/-- Every event emitted by `read_object` is an RDB data event carrying
the db of the meta passed in — never a bracket marker and never an AOF
event. -/
theorem read_object_events :
    ∀ (vt : Nat) (meta : Meta) (input : List Nat) (events : List Event) (rest : List Nat),
      read_object vt meta input = .ok (events, rest) →
      ∀ e ∈ events, ∃ o, e = .rdb o ∧ objDb o = some meta.db ∧ o ≠ .bor ∧ o ≠ .eor := by
  intro vt meta input events rest h e he
  simp only [read_object] at h
  by_cases h0 : vt = 0
  · rw [if_pos h0] at h
    rw [bind_ok_iff] at h
    obtain ⟨⟨key, r1⟩, hk, h⟩ := h
    rw [bind_ok_iff] at h
    obtain ⟨⟨value, r2⟩, hv2, h⟩ := h
    cases h
    simp only [List.mem_singleton] at he
    subst he
    exact ⟨_, rfl, rfl, by simp, by simp⟩
  · rw [if_neg h0] at h
    by_cases h12 : vt = 1 ∨ vt = 2
    · rw [if_pos h12] at h
      rw [bind_ok_iff] at h
      obtain ⟨⟨key, r1⟩, hk, h⟩ := h
      rw [bind_ok_iff] at h
      obtain ⟨⟨cnt, r2⟩, hc, h⟩ := h
      cases h
      obtain ⟨b, hbm, rfl⟩ := List.mem_map.mp he
      split <;> exact ⟨_, rfl, rfl, by simp, by simp⟩
    · rw [if_neg h12] at h
      by_cases h3 : vt = 3
      · rw [if_pos h3] at h
        rw [bind_ok_iff] at h
        obtain ⟨⟨key, r1⟩, hk, h⟩ := h
        rw [bind_ok_iff] at h
        obtain ⟨⟨cnt, r2⟩, hc, h⟩ := h
        cases h
        obtain ⟨b, hbm, rfl⟩ := List.mem_map.mp he
        exact ⟨_, rfl, rfl, by simp, by simp⟩
      · rw [if_neg h3] at h
        by_cases h5 : vt = 5
        · rw [if_pos h5] at h
          rw [bind_ok_iff] at h
          obtain ⟨⟨key, r1⟩, hk, h⟩ := h
          rw [bind_ok_iff] at h
          obtain ⟨⟨cnt, r2⟩, hc, h⟩ := h
          cases h
          obtain ⟨b, hbm, rfl⟩ := List.mem_map.mp he
          exact ⟨_, rfl, rfl, by simp, by simp⟩
        · rw [if_neg h5] at h
          by_cases h4 : vt = 4
          · rw [if_pos h4] at h
            rw [bind_ok_iff] at h
            obtain ⟨⟨key, r1⟩, hk, h⟩ := h
            rw [bind_ok_iff] at h
            obtain ⟨⟨cnt, r2⟩, hc, h⟩ := h
            rcases hB : pairBatchLoop strValNext "missing hash field value" (r2.length + 2)
                (wrapI64 (cnt.val * 2), r2) with e1 | B
            · simp only [hB] at h
              cases h
            · simp only [hB] at h
              cases h
              obtain ⟨b, hbm, rfl⟩ := List.mem_map.mp he
              exact ⟨_, rfl, rfl, by simp, by simp⟩
          · rw [if_neg h4] at h
            by_cases h9 : vt = 9
            · rw [if_pos h9] at h
              rw [bind_ok_iff] at h
              obtain ⟨⟨key, r1⟩, hk, h⟩ := h
              rw [bind_ok_iff] at h
              obtain ⟨⟨bytes, r2⟩, hby, h⟩ := h
              cases h
              obtain ⟨b, hbm, rfl⟩ := List.mem_map.mp he
              exact ⟨_, rfl, rfl, by simp, by simp⟩
            · rw [if_neg h9] at h
              by_cases h10 : vt = 10
              · rw [if_pos h10] at h
                rw [bind_ok_iff] at h
                obtain ⟨⟨key, r1⟩, hk, h⟩ := h
                rw [bind_ok_iff] at h
                obtain ⟨⟨bytes, r2⟩, hby, h⟩ := h
                rw [bind_ok_iff] at h
                obtain ⟨⟨cb, body⟩, hcb, h⟩ := h
                cases h
                obtain ⟨b, hbm, rfl⟩ := List.mem_map.mp he
                exact ⟨_, rfl, rfl, by simp, by simp⟩
              · rw [if_neg h10] at h
                by_cases h13 : vt = 13
                · rw [if_pos h13] at h
                  rw [bind_ok_iff] at h
                  obtain ⟨⟨key, r1⟩, hk, h⟩ := h
                  rw [bind_ok_iff] at h
                  obtain ⟨⟨bytes, r2⟩, hby, h⟩ := h
                  rw [bind_ok_iff] at h
                  obtain ⟨⟨cb, body⟩, hcb, h⟩ := h
                  rcases hB : pairBatchLoop zipListNext "missing hash field value" (leNat cb + 2)
                      ((leNat cb : Int), body) with e1 | B
                  · simp only [hB] at h
                    cases h
                  · simp only [hB] at h
                    cases h
                    obtain ⟨b, hbm, rfl⟩ := List.mem_map.mp he
                    exact ⟨_, rfl, rfl, by simp, by simp⟩
                · rw [if_neg h13] at h
                  by_cases h12z : vt = 12
                  · rw [if_pos h12z] at h
                    rw [bind_ok_iff] at h
                    obtain ⟨⟨key, r1⟩, hk, h⟩ := h
                    rw [bind_ok_iff] at h
                    obtain ⟨⟨bytes, r2⟩, hby, h⟩ := h
                    rw [bind_ok_iff] at h
                    obtain ⟨⟨cb, body⟩, hcb, h⟩ := h
                    rcases hB : scoredBatchLoop zipListNext (leNat cb + 2)
                        ((leNat cb : Int), body) with e1 | B
                    · simp only [hB] at h
                      cases h
                    · simp only [hB] at h
                      cases h
                      obtain ⟨b, hbm, rfl⟩ := List.mem_map.mp he
                      exact ⟨_, rfl, rfl, by simp, by simp⟩
                  · rw [if_neg h12z] at h
                    by_cases h11 : vt = 11
                    · rw [if_pos h11] at h
                      rw [bind_ok_iff] at h
                      obtain ⟨⟨key, r1⟩, hk, h⟩ := h
                      rw [bind_ok_iff] at h
                      obtain ⟨⟨bytes, r2⟩, hby, h⟩ := h
                      rw [bind_ok_iff] at h
                      obtain ⟨⟨e4, c1⟩, he4, h⟩ := h
                      rw [bind_ok_iff] at h
                      obtain ⟨⟨l4, c2⟩, hl4, h⟩ := h
                      cases h
                      obtain ⟨b, hbm, rfl⟩ := List.mem_map.mp he
                      exact ⟨_, rfl, rfl, by simp, by simp⟩
                    · rw [if_neg h11] at h
                      by_cases h14 : vt = 14
                      · rw [if_pos h14] at h
                        rw [bind_ok_iff] at h
                        obtain ⟨⟨key, r1⟩, hk, h⟩ := h
                        rw [bind_ok_iff] at h
                        obtain ⟨⟨cnt, r2⟩, hc, h⟩ := h
                        cases h
                        obtain ⟨b, hbm, rfl⟩ := List.mem_map.mp he
                        exact ⟨_, rfl, rfl, by simp, by simp⟩
                      · rw [if_neg h14] at h
                        by_cases h67 : vt = 6 ∨ vt = 7
                        · rw [if_pos h67] at h
                          cases h
                        · rw [if_neg h67] at h
                          by_cases h15 : vt = 15
                          · rw [if_pos h15] at h
                            cases h
                          · rw [if_neg h15] at h
                            cases h

/-- Case analysis for one opcode-loop iteration: a successful step either
halts (EOF), or continues having emitted only data events carrying the
current db (with the db unchanged), or is a SELECTDB step emitting
exactly the synthetic SELECT event for the new db (truncated to i32). -/
theorem parseStep_cases :
    ∀ (version db : Int) (input : List Nat) (out : StepOut),
      parseStep version db input = .ok out →
      (∃ rest, out = .halt rest) ∨
      (∃ evs db' rest, out = .cont evs db' rest ∧
        ((db' = db ∧ ∀ e ∈ evs, ∃ o, e = .rdb o ∧ objDb o = some db ∧ o ≠ .bor ∧ o ≠ .eor) ∨
          evs = [.aof (.select (wrapI32 db'))])) := by
  intro version db input out h
  simp only [parseStep] at h
  rw [bind_ok_iff] at h
  obtain ⟨⟨dt, r⟩, hdt, h⟩ := h
  by_cases c250 : dt = 250
  · rw [if_pos c250] at h
    rw [bind_ok_iff] at h
    obtain ⟨⟨s1, r1⟩, hs1, h⟩ := h
    rw [bind_ok_iff] at h
    obtain ⟨⟨s2, r2⟩, hs2, h⟩ := h
    cases h
    exact Or.inr ⟨[], db, r2, rfl, Or.inl ⟨rfl, by simp⟩⟩
  · rw [if_neg c250] at h
    by_cases c254 : dt = 254
    · rw [if_pos c254] at h
      rw [bind_ok_iff] at h
      obtain ⟨⟨l, r1⟩, hl, h⟩ := h
      cases h
      exact Or.inr ⟨_, _, _, rfl, Or.inr rfl⟩
    · rw [if_neg c254] at h
      by_cases c251 : dt = 251
      · rw [if_pos c251] at h
        rw [bind_ok_iff] at h
        obtain ⟨⟨l1, r1⟩, hl1, h⟩ := h
        rw [bind_ok_iff] at h
        obtain ⟨⟨l2, r2⟩, hl2, h⟩ := h
        cases h
        exact Or.inr ⟨[], db, r2, rfl, Or.inl ⟨rfl, by simp⟩⟩
      · rw [if_neg c251] at h
        by_cases c2523 : dt = 252 ∨ dt = 253
        · rw [if_pos c2523] at h
          by_cases c252 : dt = 252
          · rw [if_pos c252] at h
            rw [bind_ok_iff] at h
            obtain ⟨⟨et, r1⟩, het, h⟩ := h
            rw [bind_ok_iff] at h
            obtain ⟨⟨vt0, r2⟩, hvt0, h⟩ := h
            by_cases e249 : vt0 = 249
            · rw [if_pos e249] at h
              rw [bind_ok_iff] at h
              obtain ⟨⟨val, r3⟩, hval, h⟩ := h
              rw [bind_ok_iff] at h
              obtain ⟨⟨vt1, r4⟩, hvt1, h⟩ := h
              rw [bind_ok_iff] at h
              obtain ⟨⟨evs, r5⟩, hro, h⟩ := h
              cases h
              exact Or.inr ⟨evs, db, r5, rfl,
                Or.inl ⟨rfl, read_object_events _ _ _ _ _ hro⟩⟩
            · rw [if_neg e249] at h
              by_cases e248 : vt0 = 248
              · rw [if_pos e248] at h
                rw [bind_ok_iff] at h
                obtain ⟨⟨l, r3⟩, hl, h⟩ := h
                rw [bind_ok_iff] at h
                obtain ⟨⟨vt1, r4⟩, hvt1, h⟩ := h
                rw [bind_ok_iff] at h
                obtain ⟨⟨evs, r5⟩, hro, h⟩ := h
                cases h
                exact Or.inr ⟨evs, db, r5, rfl,
                  Or.inl ⟨rfl, read_object_events _ _ _ _ _ hro⟩⟩
              · rw [if_neg e248] at h
                rw [bind_ok_iff] at h
                obtain ⟨⟨evs, r3⟩, hro, h⟩ := h
                cases h
                exact Or.inr ⟨evs, db, r3, rfl,
                  Or.inl ⟨rfl, read_object_events _ _ _ _ _ hro⟩⟩
          · rw [if_neg c252] at h
            rw [bind_ok_iff] at h
            obtain ⟨⟨et, r1⟩, het, h⟩ := h
            rw [bind_ok_iff] at h
            obtain ⟨⟨vt0, r2⟩, hvt0, h⟩ := h
            by_cases e249 : vt0 = 249
            · rw [if_pos e249] at h
              rw [bind_ok_iff] at h
              obtain ⟨⟨val, r3⟩, hval, h⟩ := h
              rw [bind_ok_iff] at h
              obtain ⟨⟨vt1, r4⟩, hvt1, h⟩ := h
              rw [bind_ok_iff] at h
              obtain ⟨⟨evs, r5⟩, hro, h⟩ := h
              cases h
              exact Or.inr ⟨evs, db, r5, rfl,
                Or.inl ⟨rfl, read_object_events _ _ _ _ _ hro⟩⟩
            · rw [if_neg e249] at h
              by_cases e248 : vt0 = 248
              · rw [if_pos e248] at h
                rw [bind_ok_iff] at h
                obtain ⟨⟨l, r3⟩, hl, h⟩ := h
                rw [bind_ok_iff] at h
                obtain ⟨⟨vt1, r4⟩, hvt1, h⟩ := h
                rw [bind_ok_iff] at h
                obtain ⟨⟨evs, r5⟩, hro, h⟩ := h
                cases h
                exact Or.inr ⟨evs, db, r5, rfl,
                  Or.inl ⟨rfl, read_object_events _ _ _ _ _ hro⟩⟩
              · rw [if_neg e248] at h
                rw [bind_ok_iff] at h
                obtain ⟨⟨evs, r3⟩, hro, h⟩ := h
                cases h
                exact Or.inr ⟨evs, db, r3, rfl,
                  Or.inl ⟨rfl, read_object_events _ _ _ _ _ hro⟩⟩
        · rw [if_neg c2523] at h
          by_cases c249 : dt = 249
          · rw [if_pos c249] at h
            rw [bind_ok_iff] at h
            obtain ⟨⟨val, r1⟩, hval, h⟩ := h
            rw [bind_ok_iff] at h
            obtain ⟨⟨vt1, r2⟩, hvt1, h⟩ := h
            rw [bind_ok_iff] at h
            obtain ⟨⟨evs, r3⟩, hro, h⟩ := h
            cases h
            exact Or.inr ⟨evs, db, r3, rfl,
              Or.inl ⟨rfl, read_object_events _ _ _ _ _ hro⟩⟩
          · rw [if_neg c249] at h
            by_cases c248 : dt = 248
            · rw [if_pos c248] at h
              rw [bind_ok_iff] at h
              obtain ⟨⟨l, r1⟩, hl, h⟩ := h
              rw [bind_ok_iff] at h
              obtain ⟨⟨vt1, r2⟩, hvt1, h⟩ := h
              rw [bind_ok_iff] at h
              obtain ⟨⟨evs, r3⟩, hro, h⟩ := h
              cases h
              exact Or.inr ⟨evs, db, r3, rfl,
                Or.inl ⟨rfl, read_object_events _ _ _ _ _ hro⟩⟩
            · rw [if_neg c248] at h
              by_cases c247 : dt = 247
              · rw [if_pos c247] at h
                cases h
              · rw [if_neg c247] at h
                by_cases c255 : dt = 255
                · rw [if_pos c255] at h
                  by_cases cver : (5 : Int) ≤ version
                  · rw [if_pos cver] at h
                    rw [bind_ok_iff] at h
                    obtain ⟨⟨crc, r1⟩, hcrc, h⟩ := h
                    cases h
                    exact Or.inl ⟨r1, rfl⟩
                  · rw [if_neg cver] at h
                    cases h
                    exact Or.inl ⟨r, rfl⟩
                · rw [if_neg c255] at h
                  rw [bind_ok_iff] at h
                  obtain ⟨⟨evs, r1⟩, hro, h⟩ := h
                  cases h
                  exact Or.inr ⟨evs, db, r1, rfl,
                    Or.inl ⟨rfl, read_object_events _ _ _ _ _ hro⟩⟩

/-- The db-consistency invariant of the emitted event stream
(Claim C5): walking the events with a current full db value `d`
(starting at 0), every data object event carries `d` in its meta, the
bracket markers carry nothing, and every synthetic SELECT event carries
the i32 truncation of the new full db value, which then governs the
following events until the next SELECT. -/
inductive DbOk : Int → List Event → Prop
  | nil {d : Int} : DbOk d []
  | obj {d : Int} {o : Obj} {es : List Event} :
      objDb o = some d → DbOk d es → DbOk d (.rdb o :: es)
  | marker {d : Int} {o : Obj} {es : List Event} :
      objDb o = none → DbOk d es → DbOk d (.rdb o :: es)
  | sel {d d' : Int} {es : List Event} :
      DbOk d' es → DbOk d (.aof (.select (wrapI32 d')) :: es)

theorem DbOk_prepend_objs {d : Int} {evs es : List Event}
    (h : ∀ e ∈ evs, ∃ o, e = .rdb o ∧ objDb o = some d)
    (hes : DbOk d es) : DbOk d (evs ++ es) := by
  induction evs with
  | nil => simpa using hes
  | cons e evs ih =>
    obtain ⟨o, rfl, ho⟩ := h e (by simp)
    exact DbOk.obj ho (ih fun e' he' => h e' (by simp [he']))

theorem DbOk_append_eor {d : Int} {es : List Event} (h : DbOk d es) :
    DbOk d (es ++ [.rdb .eor]) := by
  induction h with
  | nil => exact DbOk.marker rfl DbOk.nil
  | obj ho _ ih => exact DbOk.obj ho ih
  | marker ho _ ih => exact DbOk.marker ho ih
  | sel _ ih => exact DbOk.sel ih

/-- The opcode loop emits a db-consistent stream (starting db `db`)
containing no bracket markers. -/
theorem parseLoop_events :
    ∀ (running : Bool) (version : Int) (fuel : Nat) (db : Int) (input : List Nat)
      (evs : List Event) (rest : List Nat),
      parseLoop running version fuel db input = .ok (evs, rest) →
      DbOk db evs ∧ ∀ e ∈ evs, e ≠ .rdb .bor ∧ e ≠ .rdb .eor := by
  intro running version fuel
  induction fuel with
  | zero => intro db input evs rest h; cases h
  | succ fuel ih =>
    intro db input evs rest h
    simp only [parseLoop] at h
    by_cases hr : running
    · rw [if_pos hr] at h
      cases hs : parseStep version db input with
      | error e => simp only [hs] at h; cases h
      | ok out =>
        simp only [hs] at h
        rcases parseStep_cases version db input out hs with ⟨rest1, rfl⟩ | hcont
        · cases h
          exact ⟨DbOk.nil, by simp⟩
        · obtain ⟨evs1, db', rest1, rfl, hprop⟩ := hcont
          cases hl : parseLoop running version fuel db' rest1 with
          | error e => simp only [hl] at h; cases h
          | ok p =>
            simp only [hl] at h
            cases h
            obtain ⟨hdb1, hnm1⟩ := ih db' rest1 p.1 p.2 (by rw [hl])
            rcases hprop with ⟨rfl, hobjs⟩ | rfl
            · refine ⟨DbOk_prepend_objs (fun e he => ?_) hdb1, ?_⟩
              · obtain ⟨o, rfl, ho, _, _⟩ := hobjs _ he
                exact ⟨o, rfl, ho⟩
              · intro e he
                rcases List.mem_append.mp he with h1 | h2
                · obtain ⟨o, rfl, _, hb, he'⟩ := hobjs _ h1
                  exact ⟨by simp [hb], by simp [he']⟩
                · exact hnm1 e h2
            · refine ⟨DbOk.sel hdb1, ?_⟩
              intro e he
              rcases List.mem_append.mp he with h1 | h2
              · simp only [List.mem_singleton] at h1
                subst h1
                exact ⟨by simp, by simp⟩
              · exact hnm1 e h2
    · rw [if_neg hr] at h
      cases h
      exact ⟨DbOk.nil, by simp⟩

/-- Claim C1: whenever `parse` returns successfully, the emitted event
sequence begins with the `Object::BOR` marker, ends with the
`Object::EOR` marker, and no event strictly between the two is a
marker — so every RDB data-variant event occurs strictly between them. -/
theorem C1_snapshot_bracket :
    ∀ (running : Bool) (input : List Nat) (events : List Event) (rest : List Nat),
      parse running input = .ok (events, rest) →
      ∃ mid, events = .rdb .bor :: (mid ++ [.rdb .eor]) ∧
        ∀ e ∈ mid, e ≠ .rdb .bor ∧ e ≠ .rdb .eor := by
  intro running input events rest h
  simp only [parse] at h
  rw [bind_ok_iff] at h
  obtain ⟨⟨magic, r1⟩, hm, h⟩ := h
  rw [bind_ok_iff] at h
  obtain ⟨⟨ver, r2⟩, hv, h⟩ := h
  cases hp : parseIsize ver with
  | none => simp only [hp] at h; cases h
  | some version =>
    simp only [hp] at h
    cases hl : parseLoop running version (r2.length + 1) 0 r2 with
    | error e => simp only [hl] at h; cases h
    | ok p =>
      simp only [hl] at h
      cases h
      obtain ⟨_, hnm⟩ := parseLoop_events running version (r2.length + 1) 0 r2 p.1 p.2
        (by rw [hl])
      exact ⟨p.1, rfl, hnm⟩

/-- Witness for `C1_snapshot_bracket`: an RDB with one expire-prefixed
string record parses to `BOR`, the data event, `EOR`. -/
theorem C1_witness :
    parse true [82, 69, 68, 73, 83, 48, 48, 48, 52,
        252, 1, 0, 0, 0, 0, 0, 0, 0, 249, 7, 0, 1, 97, 1, 98, 255] =
      .ok ([.rdb .bor,
        .rdb (.str [97] [98] ⟨0, some (.millisecond, 1), some (.lfu, 7)⟩),
        .rdb .eor], []) ∧
    (∃ mid,
      ([Event.rdb .bor,
        .rdb (.str [97] [98] ⟨0, some (.millisecond, 1), some (.lfu, 7)⟩),
        .rdb .eor] : List Event) = .rdb .bor :: (mid ++ [.rdb .eor]) ∧
      ∀ e ∈ mid, e ≠ Event.rdb .bor ∧ e ≠ Event.rdb .eor) :=
  ⟨rfl, C1_snapshot_bracket true
    [82, 69, 68, 73, 83, 48, 48, 48, 52,
      252, 1, 0, 0, 0, 0, 0, 0, 0, 249, 7, 0, 1, 97, 1, 98, 255] _ [] rfl⟩

/-- Claim C5 counterexample: a SELECTDB opcode whose length decodes to
`2^31` updates the current db to `2^31` (as the first conjunct shows for
the embedded length bytes), but the synthesised SELECT event carries the
`as i32` truncation `-2^31`, not the db value itself, refuting the claim
that the parser "synthesises a streamed SELECT{db} command event" for
that db. -/
theorem C5_counterexample :
    read_length [0x81, 0, 0, 0, 0, 128, 0, 0, 0] = .ok (⟨2147483648, false⟩, []) ∧
    parse true [82, 69, 68, 73, 83, 48, 48, 48, 52,
        254, 0x81, 0, 0, 0, 0, 128, 0, 0, 0, 255] =
      .ok ([.rdb .bor, .aof (.select (-2147483648)), .rdb .eor], []) ∧
    (-2147483648 : Int) ≠ (2147483648 : Int) :=
  ⟨rfl, rfl, by decide⟩

/-- Claim C5 (amended): on the SELECTDB opcode the parser reads one
length, updates the current db to that value, and synthesises a streamed
SELECT command event carrying the db truncated to a signed 32-bit
integer (`as i32`); every object event emitted afterwards until the next
SELECTDB opcode carries the full value in its `Meta.db` — formalised by
the `DbOk` invariant, which every successful parse satisfies starting
from db 0, so within a snapshot all events for a given key arrive with
the same `Meta.db`. -/
theorem C5_selectdb_db_tracking :
    ∀ (running : Bool) (input : List Nat) (events : List Event) (rest : List Nat),
      parse running input = .ok (events, rest) → DbOk 0 events := by
  intro running input events rest h
  simp only [parse] at h
  rw [bind_ok_iff] at h
  obtain ⟨⟨magic, r1⟩, hm, h⟩ := h
  rw [bind_ok_iff] at h
  obtain ⟨⟨ver, r2⟩, hv, h⟩ := h
  cases hp : parseIsize ver with
  | none => simp only [hp] at h; cases h
  | some version =>
    simp only [hp] at h
    cases hl : parseLoop running version (r2.length + 1) 0 r2 with
    | error e => simp only [hl] at h; cases h
    | ok p =>
      simp only [hl] at h
      cases h
      obtain ⟨hdb, _⟩ := parseLoop_events running version (r2.length + 1) 0 r2 p.1 p.2
        (by rw [hl])
      exact DbOk.marker rfl (DbOk_append_eor hdb)

/-- Witness for `C5_selectdb_db_tracking`: parsing an RDB with
`SELECTDB 1` then a string record yields a db-consistent stream whose
object event carries `Meta.db = 1`. -/
theorem C5_witness :
    parse true [82, 69, 68, 73, 83, 48, 48, 48, 52, 254, 1, 0, 1, 97, 1, 98, 255] =
      .ok ([.rdb .bor, .aof (.select 1),
        .rdb (.str [97] [98] ⟨1, none, none⟩), .rdb .eor], []) ∧
    DbOk 0 [.rdb .bor, .aof (.select 1),
      .rdb (.str [97] [98] ⟨1, none, none⟩), .rdb .eor] :=
  ⟨rfl, C5_selectdb_db_tracking true
    [82, 69, 68, 73, 83, 48, 48, 48, 52, 254, 1, 0, 1, 97, 1, 98, 255] _ [] rfl⟩

/-! ### Claim C10: the `expect` panic and the pairing of elements -/

/-- `Yields next s ys s'` holds when the iterator started at `s`
produces exactly the elements `ys` and is then exhausted at state `s'`
(`next s' = none`). -/
inductive Yields {σ E : Type} (next : σ → Option (E × σ)) : σ → List E → σ → Prop
  | done {s : σ} : next s = none → Yields next s [] s
  | step {s s' s'' : σ} {e : E} {ys : List E} :
      next s = some (e, s') → Yields next s' ys s'' → Yields next s (e :: ys) s''

/-- Consecutive pairing of a list, dropping an unmatched last element:
`pairList [a, b, c, d] = [(a, b), (c, d)]`. -/
def pairList {E : Type} : List E → List (E × E)
  | a :: b :: t => (a, b) :: pairList t
  | _ => []

/-- Consecutive pairing of a ziplist sorted-set yield into `Item`s
(member, raw score text), dropping an unmatched last element. -/
def itemList : List (List Nat) → List Item
  | m :: s :: t => Item.mk m (.raw s) :: itemList t
  | _ => []

/-- Every element in score position (the second of each consecutive
pair) is accepted float text — the condition under which none of the
record's `parse::<f64>().unwrap()` calls panics. -/
def scoresOk : List (List Nat) → Bool
  | _ :: s :: t => isF64Text s && scoresOk t
  | _ => true

/-- `chunks64` split with explicit fuel (structural recursion so that
terms reduce by `rfl`); each step removes at least one element, so
`l.length` fuel suffices. -/
def chunksAux {E : Type} : Nat → List E → List (List E)
  | 0, _ => []
  | _ + 1, [] => []
  | f + 1, a :: t => (a :: t).take BATCH_SIZE :: chunksAux f ((a :: t).drop BATCH_SIZE)

/-- Split a list into consecutive chunks of `BATCH_SIZE`, the last chunk
possibly shorter; the batches a full drain of an iterator produces. -/
def chunks64 {E : Type} (l : List E) : List (List E) := chunksAux l.length l

theorem chunksAux_nil {E : Type} : ∀ f : Nat, chunksAux (E := E) f [] = []
  | 0 => rfl
  | _ + 1 => rfl

theorem chunksAux_congr {E : Type} :
    ∀ (f f' : Nat) (l : List E), l.length ≤ f → l.length ≤ f' →
      chunksAux f l = chunksAux f' l := by
  intro f
  induction f with
  | zero =>
    intro f' l hf hf'
    have : l = [] := List.length_eq_zero.mp (Nat.le_zero.mp hf)
    subst this
    rw [chunksAux_nil, chunksAux_nil]
  | succ f ih =>
    intro f' l hf hf'
    cases l with
    | nil => rw [chunksAux_nil, chunksAux_nil]
    | cons a t =>
      cases f' with
      | zero => simp at hf'
      | succ f'' =>
        simp only [chunksAux]
        have hd : ((a :: t).drop BATCH_SIZE).length ≤ f := by
          simp [BATCH_SIZE] at hf ⊢
          omega
        have hd' : ((a :: t).drop BATCH_SIZE).length ≤ f'' := by
          simp [BATCH_SIZE] at hf' ⊢
          omega
        rw [ih f'' _ hd hd']

theorem chunks64_cons {E : Type} (l : List E) (h : l ≠ []) :
    chunks64 l = l.take BATCH_SIZE :: chunks64 (l.drop BATCH_SIZE) := by
  cases l with
  | nil => exact absurd rfl h
  | cons a t =>
    simp only [chunks64, List.length_cons, chunksAux]
    congr 1
    apply chunksAux_congr
    · simp [BATCH_SIZE]
    · exact le_refl _

theorem pairList_length {E : Type} : ∀ ys : List E, (pairList ys).length = ys.length / 2
  | [] => by simp [pairList]
  | [a] => by simp [pairList]
  | a :: b :: t => by
    simp only [pairList, List.length_cons, pairList_length t]
    omega

theorem pairList_take {E : Type} :
    ∀ (k : Nat) (ys : List E), (pairList ys).take k = pairList (ys.take (2 * k))
  | 0, ys => by
    cases ys with
    | nil => simp [pairList]
    | cons a t =>
      cases t with
      | nil => simp [pairList]
      | cons b t' => simp [pairList]
  | k + 1, [] => by simp [pairList]
  | k + 1, [a] => by simp [pairList]
  | k + 1, a :: b :: t => by
    have h2 : 2 * (k + 1) = (2 * k) + 1 + 1 := by omega
    simp only [pairList, List.take_succ_cons, h2, pairList_take k t]
    rfl

theorem pairList_drop {E : Type} :
    ∀ (k : Nat) (ys : List E), (pairList ys).drop k = pairList (ys.drop (2 * k))
  | 0, ys => by simp
  | k + 1, [] => by simp [pairList]
  | k + 1, [a] => by simp [pairList]
  | k + 1, a :: b :: t => by
    have h2 : 2 * (k + 1) = (2 * k) + 1 + 1 := by omega
    simp only [pairList, List.drop_succ_cons, h2, pairList_drop k t]

theorem itemList_length : ∀ ys : List (List Nat), (itemList ys).length = ys.length / 2
  | [] => by simp [itemList]
  | [a] => by simp [itemList]
  | a :: b :: t => by
    simp only [itemList, List.length_cons, itemList_length t]
    omega

theorem itemList_take :
    ∀ (k : Nat) (ys : List (List Nat)), (itemList ys).take k = itemList (ys.take (2 * k))
  | 0, ys => by
    cases ys with
    | nil => simp [itemList]
    | cons a t =>
      cases t with
      | nil => simp [itemList]
      | cons b t' => simp [itemList]
  | k + 1, [] => by simp [itemList]
  | k + 1, [a] => by simp [itemList]
  | k + 1, a :: b :: t => by
    have h2 : 2 * (k + 1) = (2 * k) + 1 + 1 := by omega
    simp only [itemList, List.take_succ_cons, h2, itemList_take k t]
    rfl

theorem itemList_drop :
    ∀ (k : Nat) (ys : List (List Nat)), (itemList ys).drop k = itemList (ys.drop (2 * k))
  | 0, ys => by simp
  | k + 1, [] => by simp [itemList]
  | k + 1, [a] => by simp [itemList]
  | k + 1, a :: b :: t => by
    have h2 : 2 * (k + 1) = (2 * k) + 1 + 1 := by omega
    simp only [itemList, List.drop_succ_cons, h2, itemList_drop k t]

theorem scoresOk_drop :
    ∀ (k : Nat) (ys : List (List Nat)), scoresOk ys = true →
      scoresOk (ys.drop (2 * k)) = true
  | 0, ys, h => by simpa using h
  | k + 1, [], h => by simp [scoresOk]
  | k + 1, [a], h => by simp [scoresOk]
  | k + 1, a :: b :: t, h => by
    have h2 : 2 * (k + 1) = (2 * k) + 1 + 1 := by omega
    simp only [scoresOk, Bool.and_eq_true] at h
    simp only [h2, List.drop_succ_cons]
    exact scoresOk_drop k t h.2

/-- Behaviour of one pair-filling batch against the iterator's full
yield: within one batch (`2·n` element budget), an even-length exhausted
yield fills completely with `more = false`, an odd-length one panics
(the `expect`), and a yield longer than the budget fills the batch and
leaves the rest. -/
theorem fillPairBatch_yields {σ E : Type} (next : σ → Option (E × σ)) (msg : String) :
    ∀ (n : Nat) (s : σ) (ys : List E) (sf : σ), Yields next s ys sf →
      (ys.length < 2 * n →
        (ys.length % 2 = 0 → fillPairBatch next msg n s = .ok (pairList ys, sf, false)) ∧
        (ys.length % 2 = 1 → fillPairBatch next msg n s = .error (.panicked msg))) ∧
      (2 * n ≤ ys.length →
        ∃ sm, fillPairBatch next msg n s = .ok (pairList (ys.take (2 * n)), sm, true) ∧
          Yields next sm (ys.drop (2 * n)) sf) := by
  intro n
  induction n with
  | zero =>
    intro s ys sf hy
    refine ⟨fun hlen => absurd hlen (by omega), fun _ => ⟨s, ?_, by simpa using hy⟩⟩
    simp [fillPairBatch, pairList]
  | succ n ih =>
    intro s ys sf hy
    cases hy with
    | done hnone =>
      refine ⟨fun hlen => ⟨fun _ => ?_, fun hpar => by simp at hpar⟩,
        fun hle => absurd hle (by simp at hle ⊢)⟩
      simp [fillPairBatch, hnone, pairList]
    | step hsome hy1 =>
      rename_i s1 e ys1
      cases hy1 with
      | done hnone1 =>
        refine ⟨fun hlen => ⟨fun hpar => by simp at hpar, fun _ => ?_⟩,
          fun hle => absurd hle (by simp at hle ⊢; omega)⟩
        simp [fillPairBatch, hsome, hnone1]
      | step hsome2 hy2 =>
        rename_i s2 v ys2
        obtain ⟨ihA, ihB⟩ := ih s2 ys2 sf hy2
        refine ⟨fun hlen => ⟨fun hpar => ?_, fun hpar => ?_⟩, fun hle => ?_⟩
        · have h1 : ys2.length < 2 * n := by simp at hlen; omega
          have h2 : ys2.length % 2 = 0 := by simp at hpar; omega
          simp [fillPairBatch, hsome, hsome2, (ihA h1).1 h2, pairList]
        · have h1 : ys2.length < 2 * n := by simp at hlen; omega
          have h2 : ys2.length % 2 = 1 := by simp at hpar; omega
          simp [fillPairBatch, hsome, hsome2, (ihA h1).2 h2]
        · obtain ⟨sm, hfill, hyd⟩ := ihB (by simp at hle; omega)
          have h2' : 2 * (n + 1) = 2 * n + 1 + 1 := by omega
          refine ⟨sm, ?_, ?_⟩
          · simp [fillPairBatch, hsome, hsome2, hfill, h2', List.take_succ_cons, pairList]
          · have hd : (e :: v :: ys2).drop (2 * (n + 1)) = ys2.drop (2 * n) := by
              rw [h2']
              simp [List.drop_succ_cons]
            rw [hd]
            exact hyd

/-- Behaviour of the full pairing loop against the iterator's yield: an
odd-length exhausted yield makes the loop panic with the `expect`
message, and an even-length one delivers exactly the 64-pair chunks of
the consecutive pairing, ending in the iterator's final state. -/
theorem pairBatchLoop_yields {σ E : Type} (next : σ → Option (E × σ)) (msg : String) :
    ∀ (fuel : Nat) (s : σ) (ys : List E) (sf : σ), Yields next s ys sf →
      ys.length < fuel * (2 * BATCH_SIZE) →
      (ys.length % 2 = 1 → pairBatchLoop next msg fuel s = .error (.panicked msg)) ∧
      (ys.length % 2 = 0 →
        pairBatchLoop next msg fuel s = .ok (chunks64 (pairList ys), sf)) := by
  intro fuel
  induction fuel with
  | zero =>
    intro s ys sf hy hlen
    exact absurd hlen (by simp)
  | succ fuel ih =>
    intro s ys sf hy hlen
    obtain ⟨fA, fB⟩ := fillPairBatch_yields next msg BATCH_SIZE s ys sf hy
    by_cases hcase : ys.length < 2 * BATCH_SIZE
    · obtain ⟨fEven, fOdd⟩ := fA hcase
      constructor
      · intro hpar
        simp [pairBatchLoop, fOdd hpar]
      · intro hpar
        simp only [pairBatchLoop, fEven hpar]
        by_cases hnil : ys = []
        · subst hnil
          rfl
        · have hpl : pairList ys ≠ [] := by
            have hlp := pairList_length ys
            have hylen : 2 ≤ ys.length := by
              cases ys with
              | nil => exact absurd rfl hnil
              | cons a t => simp at hpar ⊢; omega
            intro hc
            rw [hc] at hlp
            simp at hlp
            omega
          have hsmall : (pairList ys).length ≤ BATCH_SIZE := by
            rw [pairList_length]
            simp [BATCH_SIZE] at hcase ⊢
            omega
          have hie : (pairList ys).isEmpty = false := by
            simp [List.isEmpty_iff, hpl]
          simp only [hie, Bool.false_eq_true, if_false]
          rw [chunks64_cons _ hpl, List.take_of_length_le hsmall,
            List.drop_eq_nil_of_le hsmall]
          rfl
    · obtain ⟨sm, hfill, hyd⟩ := fB (Nat.le_of_not_lt hcase)
      have hdlen : (ys.drop (2 * BATCH_SIZE)).length < fuel * (2 * BATCH_SIZE) := by
        simp only [List.length_drop]
        simp [BATCH_SIZE] at hlen hcase ⊢
        omega
      obtain ⟨lOdd, lEven⟩ := ih sm (ys.drop (2 * BATCH_SIZE)) sf hyd hdlen
      have hpard : (ys.drop (2 * BATCH_SIZE)).length % 2 = ys.length % 2 := by
        simp only [List.length_drop]
        simp [BATCH_SIZE] at hcase ⊢
        omega
      have htake_len : (pairList (ys.take (2 * BATCH_SIZE))).length = BATCH_SIZE := by
        rw [pairList_length, List.length_take]
        simp [BATCH_SIZE] at hcase ⊢
        omega
      have htake_ne : pairList (ys.take (2 * BATCH_SIZE)) ≠ [] := by
        intro hc
        rw [hc] at htake_len
        simp [BATCH_SIZE] at htake_len
      have hie2 : (pairList (ys.take (2 * BATCH_SIZE))).isEmpty = false := by
        simp [List.isEmpty_iff, htake_ne]
      have hplne : pairList ys ≠ [] := by
        have hlp := pairList_length ys
        intro hc
        rw [hc] at hlp
        simp [BATCH_SIZE] at hcase hlp
        omega
      constructor
      · intro hpar
        have hpar2 : (ys.drop (2 * BATCH_SIZE)).length % 2 = 1 := by omega
        simp [pairBatchLoop, hfill, lOdd hpar2]
      · intro hpar
        have hpar2 : (ys.drop (2 * BATCH_SIZE)).length % 2 = 0 := by omega
        simp only [pairBatchLoop, hfill, hie2, Bool.false_eq_true, if_false, if_true,
          lEven hpar2]
        rw [chunks64_cons (pairList ys) hplne, pairList_take, pairList_drop]
        simp

/-- Behaviour of one score-checking batch (`ZSET_ZIPLIST`) against the
iterator's full yield, when every score text is accepted float text:
within one batch (`2·n` element budget), an even-length exhausted yield
fills completely with `more = false`, an odd-length one panics (the
`expect`), and a yield longer than the budget fills the batch and leaves
the rest. -/
theorem fillScoredBatch_yields {σ : Type} (next : σ → Option (List Nat × σ)) :
    ∀ (n : Nat) (s : σ) (ys : List (List Nat)) (sf : σ), Yields next s ys sf →
      scoresOk ys = true →
      (ys.length < 2 * n →
        (ys.length % 2 = 0 → fillScoredBatch next n s = .ok (itemList ys, sf, false)) ∧
        (ys.length % 2 = 1 → fillScoredBatch next n s =
          .error (.panicked "missing sorted set element's score"))) ∧
      (2 * n ≤ ys.length →
        ∃ sm, fillScoredBatch next n s = .ok (itemList (ys.take (2 * n)), sm, true) ∧
          Yields next sm (ys.drop (2 * n)) sf) := by
  intro n
  induction n with
  | zero =>
    intro s ys sf hy hs
    refine ⟨fun hlen => absurd hlen (by omega), fun _ => ⟨s, ?_, by simpa using hy⟩⟩
    simp [fillScoredBatch, itemList]
  | succ n ih =>
    intro s ys sf hy hs
    cases hy with
    | done hnone =>
      refine ⟨fun hlen => ⟨fun _ => ?_, fun hpar => by simp at hpar⟩,
        fun hle => absurd hle (by simp at hle ⊢)⟩
      simp [fillScoredBatch, hnone, itemList]
    | step hsome hy1 =>
      rename_i s1 e ys1
      cases hy1 with
      | done hnone1 =>
        refine ⟨fun hlen => ⟨fun hpar => by simp at hpar, fun _ => ?_⟩,
          fun hle => absurd hle (by simp at hle ⊢; omega)⟩
        simp [fillScoredBatch, hsome, hnone1]
      | step hsome2 hy2 =>
        rename_i s2 v ys2
        simp only [scoresOk, Bool.and_eq_true] at hs
        obtain ⟨hfv, hs2⟩ := hs
        obtain ⟨ihA, ihB⟩ := ih s2 ys2 sf hy2 hs2
        refine ⟨fun hlen => ⟨fun hpar => ?_, fun hpar => ?_⟩, fun hle => ?_⟩
        · have h1 : ys2.length < 2 * n := by simp at hlen; omega
          have h2 : ys2.length % 2 = 0 := by simp at hpar; omega
          simp [fillScoredBatch, hsome, hsome2, hfv, (ihA h1).1 h2, itemList]
        · have h1 : ys2.length < 2 * n := by simp at hlen; omega
          have h2 : ys2.length % 2 = 1 := by simp at hpar; omega
          simp [fillScoredBatch, hsome, hsome2, hfv, (ihA h1).2 h2]
        · obtain ⟨sm, hfill, hyd⟩ := ihB (by simp at hle; omega)
          have h2' : 2 * (n + 1) = 2 * n + 1 + 1 := by omega
          refine ⟨sm, ?_, ?_⟩
          · simp [fillScoredBatch, hsome, hsome2, hfv, hfill, h2',
              List.take_succ_cons, itemList]
          · have hd : (e :: v :: ys2).drop (2 * (n + 1)) = ys2.drop (2 * n) := by
              rw [h2']
              simp [List.drop_succ_cons]
            rw [hd]
            exact hyd

/-- Behaviour of the full `ZSET_ZIPLIST` loop against the iterator's
yield when every score text is accepted float text: an odd-length
exhausted yield makes the loop panic with the `expect` message, and an
even-length one delivers exactly the 64-item chunks of the consecutive
(member, score) pairing, ending in the iterator's final state. -/
theorem scoredBatchLoop_yields {σ : Type} (next : σ → Option (List Nat × σ)) :
    ∀ (fuel : Nat) (s : σ) (ys : List (List Nat)) (sf : σ), Yields next s ys sf →
      scoresOk ys = true →
      ys.length < fuel * (2 * BATCH_SIZE) →
      (ys.length % 2 = 1 → scoredBatchLoop next fuel s =
        .error (.panicked "missing sorted set element's score")) ∧
      (ys.length % 2 = 0 →
        scoredBatchLoop next fuel s = .ok (chunks64 (itemList ys), sf)) := by
  intro fuel
  induction fuel with
  | zero =>
    intro s ys sf hy hs hlen
    exact absurd hlen (by simp)
  | succ fuel ih =>
    intro s ys sf hy hs hlen
    obtain ⟨fA, fB⟩ := fillScoredBatch_yields next BATCH_SIZE s ys sf hy hs
    by_cases hcase : ys.length < 2 * BATCH_SIZE
    · obtain ⟨fEven, fOdd⟩ := fA hcase
      constructor
      · intro hpar
        simp [scoredBatchLoop, fOdd hpar]
      · intro hpar
        simp only [scoredBatchLoop, fEven hpar]
        by_cases hnil : ys = []
        · subst hnil
          rfl
        · have hpl : itemList ys ≠ [] := by
            have hlp := itemList_length ys
            have hylen : 2 ≤ ys.length := by
              cases ys with
              | nil => exact absurd rfl hnil
              | cons a t => simp at hpar ⊢; omega
            intro hc
            rw [hc] at hlp
            simp at hlp
            omega
          have hsmall : (itemList ys).length ≤ BATCH_SIZE := by
            rw [itemList_length]
            simp [BATCH_SIZE] at hcase ⊢
            omega
          have hie : (itemList ys).isEmpty = false := by
            simp [List.isEmpty_iff, hpl]
          simp only [hie, Bool.false_eq_true, if_false]
          rw [chunks64_cons _ hpl, List.take_of_length_le hsmall,
            List.drop_eq_nil_of_le hsmall]
          rfl
    · obtain ⟨sm, hfill, hyd⟩ := fB (Nat.le_of_not_lt hcase)
      have hsd : scoresOk (ys.drop (2 * BATCH_SIZE)) = true := scoresOk_drop BATCH_SIZE ys hs
      have hdlen : (ys.drop (2 * BATCH_SIZE)).length < fuel * (2 * BATCH_SIZE) := by
        simp only [List.length_drop]
        simp [BATCH_SIZE] at hlen hcase ⊢
        omega
      obtain ⟨lOdd, lEven⟩ := ih sm (ys.drop (2 * BATCH_SIZE)) sf hyd hsd hdlen
      have hpard : (ys.drop (2 * BATCH_SIZE)).length % 2 = ys.length % 2 := by
        simp only [List.length_drop]
        simp [BATCH_SIZE] at hcase ⊢
        omega
      have htake_len : (itemList (ys.take (2 * BATCH_SIZE))).length = BATCH_SIZE := by
        rw [itemList_length, List.length_take]
        simp [BATCH_SIZE] at hcase ⊢
        omega
      have htake_ne : itemList (ys.take (2 * BATCH_SIZE)) ≠ [] := by
        intro hc
        rw [hc] at htake_len
        simp [BATCH_SIZE] at htake_len
      have hie2 : (itemList (ys.take (2 * BATCH_SIZE))).isEmpty = false := by
        simp [List.isEmpty_iff, htake_ne]
      have hplne : itemList ys ≠ [] := by
        have hlp := itemList_length ys
        intro hc
        rw [hc] at hlp
        simp [BATCH_SIZE] at hcase hlp
        omega
      constructor
      · intro hpar
        have hpar2 : (ys.drop (2 * BATCH_SIZE)).length % 2 = 1 := by omega
        simp [scoredBatchLoop, hfill, lOdd hpar2]
      · intro hpar
        have hpar2 : (ys.drop (2 * BATCH_SIZE)).length % 2 = 0 := by omega
        simp only [scoredBatchLoop, hfill, hie2, Bool.false_eq_true, if_false, if_true,
          lEven hpar2]
        rw [chunks64_cons (itemList ys) hplne, itemList_take, itemList_drop]
        simp

/-- Claim C10: in the `HASH`, `HASH_ZIPLIST` and `ZSET_ZIPLIST` arms of
`read_object`, when the element iterator yields a field name (or member)
but fails to yield the following value (or score) — i.e. the iterator's
complete yield has odd length — the decoder panics via
`iter.next().expect(..)` (embedded as the `panicked` error) instead of
returning an error `Result`; when the record supplies a complete
even-length element sequence the panic is unreachable and each emitted
event pairs consecutive elements as (name, value) / (member, score) in
stream order, batched in 64-pair chunks.  The `HASH` iterator starts at
the source's `isize` product `count * 2` (wrap-around embedded as
`wrapI64`); for `ZSET_ZIPLIST` both conclusions additionally assume that
every score-position element is accepted float text (`scoresOk`), since
otherwise `score_str.parse::<f64>().unwrap()` panics before the pairing
or the `expect` is reached. -/
theorem C10_pairing_expect_panic :
    (∀ (meta : Meta) (input key r1 : List Nat) (cnt : Length) (r2 : List Nat)
        (ys : List (List Nat)) (sfin : Int × List Nat),
      read_string input = .ok (key, r1) →
      read_length r1 = .ok (cnt, r2) →
      Yields strValNext (wrapI64 (cnt.val * 2), r2) ys sfin →
      ys.length < (r2.length + 2) * (2 * BATCH_SIZE) →
      (ys.length % 2 = 1 →
        read_object 4 meta input = .error (.panicked "missing hash field value")) ∧
      (ys.length % 2 = 0 →
        read_object 4 meta input = .ok ((chunks64 (pairList ys)).map
          (fun b => .rdb (.hash key (b.map fun p => Field.mk p.1 p.2) meta)), sfin.2))) ∧
    (∀ (meta : Meta) (input key r1 bytes r2 cb body : List Nat)
        (ys : List (List Nat)) (sfin : Int × List Nat),
      read_string input = .ok (key, r1) →
      read_string r1 = .ok (bytes, r2) →
      read_exact 2 (bytes.drop 8) = .ok (cb, body) →
      Yields zipListNext ((leNat cb : Int), body) ys sfin →
      ys.length < (leNat cb + 2) * (2 * BATCH_SIZE) →
      (ys.length % 2 = 1 →
        read_object 13 meta input = .error (.panicked "missing hash field value")) ∧
      (ys.length % 2 = 0 →
        read_object 13 meta input = .ok ((chunks64 (pairList ys)).map
          (fun b => .rdb (.hash key (b.map fun p => Field.mk p.1 p.2) meta)), r2))) ∧
    (∀ (meta : Meta) (input key r1 bytes r2 cb body : List Nat)
        (ys : List (List Nat)) (sfin : Int × List Nat),
      read_string input = .ok (key, r1) →
      read_string r1 = .ok (bytes, r2) →
      read_exact 2 (bytes.drop 8) = .ok (cb, body) →
      Yields zipListNext ((leNat cb : Int), body) ys sfin →
      scoresOk ys = true →
      ys.length < (leNat cb + 2) * (2 * BATCH_SIZE) →
      (ys.length % 2 = 1 →
        read_object 12 meta input =
          .error (.panicked "missing sorted set element's score")) ∧
      (ys.length % 2 = 0 →
        read_object 12 meta input = .ok ((chunks64 (itemList ys)).map
          (fun b => .rdb (.sortedSet key b meta)), r2))) := by
  refine ⟨fun meta input key r1 cnt r2 ys sfin hk hc hy hlen => ?_,
    fun meta input key r1 bytes r2 cb body ys sfin hk hb hcb hy hlen => ?_,
    fun meta input key r1 bytes r2 cb body ys sfin hk hb hcb hy hsc hlen => ?_⟩
  · obtain ⟨lOdd, lEven⟩ := pairBatchLoop_yields strValNext "missing hash field value"
      (r2.length + 2) (wrapI64 (cnt.val * 2), r2) ys sfin hy hlen
    constructor
    · intro hpar
      norm_num [read_object]
      simp [hk, hc, Bind.bind, Except.bind, lOdd hpar]
    · intro hpar
      norm_num [read_object]
      simp [hk, hc, Bind.bind, Except.bind, lEven hpar]
  · obtain ⟨lOdd, lEven⟩ := pairBatchLoop_yields zipListNext "missing hash field value"
      (leNat cb + 2) ((leNat cb : Int), body) ys sfin hy hlen
    constructor
    · intro hpar
      norm_num [read_object]
      simp [hk, hb, hcb, Bind.bind, Except.bind, lOdd hpar]
    · intro hpar
      norm_num [read_object]
      simp [hk, hb, hcb, Bind.bind, Except.bind, lEven hpar]
  · obtain ⟨lOdd, lEven⟩ := scoredBatchLoop_yields zipListNext
      (leNat cb + 2) ((leNat cb : Int), body) ys sfin hy hsc hlen
    constructor
    · intro hpar
      norm_num [read_object]
      simp [hk, hb, hcb, Bind.bind, Except.bind, lOdd hpar]
    · intro hpar
      norm_num [read_object]
      simp [hk, hb, hcb, Bind.bind, Except.bind, lEven hpar]

/-- Witness for `C10_pairing_expect_panic`: a HASH record announcing one
field whose stream ends after the field name panics with the `expect`
message. -/
theorem C10_witness :
    read_object 4 ⟨0, none, none⟩ [1, 107, 1, 1, 102] =
      .error (.panicked "missing hash field value") := by
  have hy : Yields strValNext (wrapI64 (((⟨1, false⟩ : Length).val) * 2), [1, 102])
      [[102]] (1, []) :=
    Yields.step rfl (Yields.done rfl)
  exact (C10_pairing_expect_panic.1 ⟨0, none, none⟩ [1, 107, 1, 1, 102] [107] [1, 1, 102]
    ⟨1, false⟩ [1, 102] [[102]] (1, []) rfl rfl hy (by decide)).1 (by decide)

end RedisRepl
